import Mathlib

/-!
Verification development for the XSEN orchestrator (`src/index.js` and the
iteration files `src/unnamed/part_000` / `src/unnamed/part_001` of the same
server).  The JavaScript source is shallowly embedded: pure functions become
Lean functions, the mutable per-session object becomes explicit state
passing, `Math.random()` becomes an explicit stream of draws, and remote
endpoints become oracles supplied as arguments.  JavaScript strings are
modelled by `String`; the handful of regular expressions used by the intent
helpers are modelled by literal word/substring matchers with the same
semantics on the patterns that occur in the source.
-/

namespace Xsen

/-! ## JavaScript string primitives -/

/-- ASCII lowering, modelling `String.prototype.toLowerCase()` on the ASCII
range used by the orchestrator's inputs. -/
def jsCharLower (c : Char) : Char :=
  if 65 ≤ c.toNat ∧ c.toNat ≤ 90 then Char.ofNat (c.toNat + 32) else c

def lowerStr (s : String) : String := String.mk (s.toList.map jsCharLower)

def wsChar (c : Char) : Bool := c.isWhitespace

/-- Drop leading whitespace, modelling the front half of `String.prototype.trim()`. -/
def frontTrim (l : List Char) : List Char := l.dropWhile wsChar

def trimChars (l : List Char) : List Char :=
  ((frontTrim ((frontTrim l).reverse)).reverse)

/-- `String.prototype.trim()`. -/
def jsTrim (s : String) : String := String.mk (trimChars s.toList)

/-- JavaScript `a || b` on strings: the empty string is falsy. -/
def jsOr (a b : String) : String := if a = "" then b else a

/-- Collapse every whitespace run to a single space, modelling
`replace(/\s+/g, " ")`. `prevWs` remembers whether the previous character
was part of a whitespace run. -/
def collapseWsAux : Bool → List Char → List Char
  | _, [] => []
  | prevWs, c :: cs =>
    if wsChar c then
      if prevWs then collapseWsAux true cs
      else ' ' :: collapseWsAux true cs
    else c :: collapseWsAux false cs

def collapseWs (s : String) : String := String.mk (collapseWsAux false s.toList)

/-! Substring and word matching.  `includes` is JavaScript
`String.prototype.includes`; `containsWordFrom` models a `\bword\b`
regular-expression search for patterns that begin and end with a word
character (every keyword in the source does). -/

def isPrefixCharList : List Char → List Char → Bool
  | [], _ => true
  | _ :: _, [] => false
  | c :: p, d :: t => c == d && isPrefixCharList p t

def containsSubAux (p : List Char) : List Char → Bool
  | [] => isPrefixCharList p []
  | c :: t => isPrefixCharList p (c :: t) || containsSubAux p t

/-- `s.includes(pat)` (case-sensitive). -/
def strContainsSub (s pat : String) : Bool := containsSubAux pat.toList s.toList

def wordChar (c : Char) : Bool := c.isAlphanum || c == '_'

def boundaryNext : List Char → Bool
  | [] => true
  | c :: _ => !wordChar c

def boundaryPrev : Option Char → Bool
  | none => true
  | some c => !wordChar c

def containsWordFrom (p : List Char) : Option Char → List Char → Bool
  | prev, [] => boundaryPrev prev && isPrefixCharList p [] && boundaryNext []
  | prev, c :: t =>
    (boundaryPrev prev && isPrefixCharList p (c :: t) && boundaryNext ((c :: t).drop p.length))
    || containsWordFrom p (some c) t

/-- A case-insensitive `\bpat\b` search: `pat` is given in lowercase and the
text is lowered before scanning (the source regexes carry the `i` flag). -/
def strContainsWordCI (s pat : String) : Bool :=
  containsWordFrom pat.toList none (lowerStr s).toList

/-- Case-insensitive substring search (for regexes without `\b`). -/
def strContainsSubCI (s pat : String) : Bool :=
  containsSubAux pat.toList (lowerStr s).toList

def anyWordCI (s : String) (pats : List String) : Bool :=
  pats.any (fun p => strContainsWordCI s p)

def anySubCI (s : String) (pats : List String) : Bool :=
  pats.any (fun p => strContainsSubCI s p)

/-! ## `shuffle` (Fisher–Yates, `src/index.js` lines 797–804)

`Math.random()` is modelled by a stream `rnd : Nat → Nat`; at loop index `i`
the drawn index is `rnd i % (i + 1)`, which ranges over exactly the values
`Math.floor(Math.random() * (i + 1))` can take. -/

def swapIdx (l : List String) (i j : Nat) : List String :=
  (l.set i (l.getD j "")).set j (l.getD i "")

def fyLoop (rnd : Nat → Nat) : Nat → List String → List String
  | 0, l => l
  | Nat.succ k, l => fyLoop rnd k (swapIdx l (k + 1) (rnd (k + 1) % (k + 2)))

def shuffle (rnd : Nat → Nat) (l : List String) : List String :=
  fyLoop rnd (l.length - 1) l

/-! ## Trivia engine (`src/index.js` lines 806–870, 51–69)

A trivia source record; `wrongAnswers = none` models a record without the
optional pre-authored `wrongAnswers` array. -/

structure TriviaQ where
  question : String
  answer : String
  explanation : String
  wrongAnswers : Option (List String)
deriving DecidableEq

structure MCQ where
  question : String
  options : List String
  correctIndex : Int
  explanation : String
deriving DecidableEq

/-- `sanitize` from the source: coerce-and-trim. -/
def sanitize (s : String) : String := jsTrim s

/-- `normalizeAnswer`: trim, collapse whitespace, lowercase. -/
def normalizeAnswer (s : String) : String := lowerStr (collapseWs (sanitize s))

/-- `Array.prototype.findIndex`: index of the first match, `-1` if none. -/
def findIdxO (p : α → Bool) : List α → Option Nat
  | [] => none
  | a :: l => if p a then some 0 else (findIdxO p l).map (· + 1)

def findIndexJs (p : α → Bool) (l : List α) : Int :=
  match findIdxO p l with
  | some i => Int.ofNat i
  | none => -1

/-- `Math.abs(a.length - correct.length)` on the two natural lengths. -/
def natAbsDiff (a b : Nat) : Nat := max a b - min a b

/-- The `tryAddFrom` closure of `buildMCQ`: walk `pool`, adding answers whose
normalized form is not yet in `used`, stopping as soon as 3 wrong answers
have been collected.  State is `(used, wrong)`; the JS `Set` is modelled by a
list queried with `contains`. -/
def tryAddFrom : List String → List String × List String → List String × List String
  | [], st => st
  | a :: rest, (used, wrong) =>
    let n := normalizeAnswer a
    let st' := if used.contains n then (used, wrong) else (n :: used, wrong ++ [a])
    if 3 ≤ st'.2.length then st' else tryAddFrom rest st'

/-- `allOtherAnswers` of `buildMCQ`: every sanitized bank answer that is
non-empty and does not normalize to the correct answer. -/
def allOtherAnswersOf (bank : List TriviaQ) (correctNorm : String) : List String :=
  (bank.map (fun t => sanitize t.answer)).filter
    (fun a => a != "" && normalizeAnswer a != correctNorm)

/-- The `plausible` pool: other answers whose length is within 18 of the
correct answer's length (and at least 3). -/
def plausibleOf (allOther : List String) (correctLen : Nat) (correctNorm : String) :
    List String :=
  allOther.filter
    (fun a => (3 ≤ a.length && natAbsDiff a.length correctLen ≤ 18)
      && normalizeAnswer a != correctNorm)

/-- `pool1` of `buildMCQ`: the shuffled plausible pool. -/
def triviaPool1 (bank : List TriviaQ) (q : TriviaQ) (r1 : Nat → Nat) : List String :=
  shuffle r1 (plausibleOf (allOtherAnswersOf bank (normalizeAnswer (sanitize q.answer)))
    (sanitize q.answer).length (normalizeAnswer (sanitize q.answer)))

/-- `pool2` of `buildMCQ`: the shuffled fallback pool. -/
def triviaPool2 (bank : List TriviaQ) (q : TriviaQ) (r2 : Nat → Nat) : List String :=
  shuffle r2 (allOtherAnswersOf bank (normalizeAnswer (sanitize q.answer)))

/-- State after the first `tryAddFrom(pool1)` call (initial state:
`used = {correctNorm}`, `wrong = []`). -/
def triviaSt1 (bank : List TriviaQ) (q : TriviaQ) (r1 : Nat → Nat) :
    List String × List String :=
  tryAddFrom (triviaPool1 bank q r1) ([normalizeAnswer (sanitize q.answer)], [])

/-- The `wrong` array of `buildMCQ`'s generation path: draw up to three
distinct-normalized answers from the shuffled plausible pool, topping up
from the shuffled fallback pool if fewer than 3 were found. -/
def wrongOf (bank : List TriviaQ) (q : TriviaQ) (r1 r2 : Nat → Nat) : List String :=
  (if (triviaSt1 bank q r1).2.length < 3
   then tryAddFrom (triviaPool2 bank q r2) (triviaSt1 bank q r1)
   else triviaSt1 bank q r1).2

/-- The distractor-generation path of `buildMCQ` (no usable pre-authored
`wrongAnswers`): `options = shuffle([correct, ...wrong]).slice(0, 4)`. -/
def buildMCQGenerated (bank : List TriviaQ) (q : TriviaQ) (r1 r2 r3 : Nat → Nat) : MCQ :=
  { question := sanitize q.question
    options := (shuffle r3 (sanitize q.answer :: wrongOf bank q r1 r2)).take 4
    correctIndex := findIndexJs
      (fun o => normalizeAnswer o == normalizeAnswer (sanitize q.answer))
      ((shuffle r3 (sanitize q.answer :: wrongOf bank q r1 r2)).take 4)
    explanation := jsOr (sanitize q.explanation) (sanitize q.answer) }

/-- `buildMCQ(q)` with the module-level `TRIVIA` array passed as `bank` and
the three `shuffle` calls driven by the random streams `r1`/`r2`/`r3` (in
source order: plausible pool, fallback pool, final options — the pre-authored
branch performs a single shuffle, driven by `r1`). -/
def buildMCQ (bank : List TriviaQ) (q : TriviaQ) (r1 r2 r3 : Nat → Nat) : MCQ :=
  match q.wrongAnswers with
  | some was =>
    if 3 ≤ was.length then
      { question := sanitize q.question
        options := shuffle r1 (sanitize q.answer :: (was.take 3).map sanitize)
        correctIndex := findIndexJs
          (fun o => normalizeAnswer o == normalizeAnswer (sanitize q.answer))
          (shuffle r1 (sanitize q.answer :: (was.take 3).map sanitize))
        explanation := jsOr (sanitize q.explanation) (sanitize q.answer) }
    else buildMCQGenerated bank q r1 r2 r3
  | none => buildMCQGenerated bank q r1 r2 r3

/-- `["A","B","C","D"][i]` interpolated into a template: out-of-range JS
indexing interpolates as `"undefined"`. -/
def letterAt (i : Nat) : String := ["A", "B", "C", "D"].getD i "undefined"

/-- `["A","B","C","D"][session.correctIndex]` for an `Int`-valued index. -/
def letterAtI (i : Int) : String :=
  if 0 ≤ i then letterAt i.toNat else "undefined"

structure TriviaPayload where
  question : String
  options : List String
  correctIndex : Int
  explanation : String
deriving DecidableEq

/-- `getTriviaQuestion` (`src/index.js` lines 51–69).  The random question
pick `TRIVIA[Math.floor(Math.random() * TRIVIA.length)]` is modelled by
`pick % bank.length`. -/
def getTriviaQuestion (bank : List TriviaQ) (pick : Nat) (r1 r2 r3 : Nat → Nat) :
    Except String TriviaPayload :=
  if bank.length = 0 then .error "Trivia not loaded"
  else
    let q := bank.getD (pick % bank.length) ⟨"", "", "", none⟩
    let mcq := buildMCQ bank q r1 r2 r3
    if mcq.question = "" || mcq.options.length = 0 || mcq.correctIndex < 0 then
      .error "Failed to generate trivia question"
    else
      .ok { question := mcq.question
            options := mcq.options.mapIdx (fun i o => letterAt i ++ ". " ++ o)
            correctIndex := mcq.correctIndex
            explanation := mcq.explanation }


/-- Claim-side predicate (from the spec's words): the derived
MultipleChoiceQuestion has exactly 4 options, exactly one of which
normalizes to the correct answer, and `correctIndex` is that option's
position. -/
def mcqOneCorrect (mcq : MCQ) (correctNorm : String) : Prop :=
  mcq.options.length = 4 ∧
  mcq.options.countP (fun o => normalizeAnswer o == correctNorm) = 1 ∧
  0 ≤ mcq.correctIndex ∧ mcq.correctIndex < 4 ∧
  normalizeAnswer (mcq.options.getD mcq.correctIndex.toNat "") = correctNorm

/-- Claim-side hypothesis (from the spec's words): the question bank holds
at least 4 answers that are distinct under normalization; per the
TriviaQuestion data model the answers of bank records are non-empty after
sanitization. -/
def bankHasFourDistinct (bank : List TriviaQ) : Prop :=
  ∃ t1 t2 t3 t4 : TriviaQ, t1 ∈ bank ∧ t2 ∈ bank ∧ t3 ∈ bank ∧ t4 ∈ bank ∧
    sanitize t1.answer ≠ "" ∧ sanitize t2.answer ≠ "" ∧
    sanitize t3.answer ≠ "" ∧ sanitize t4.answer ≠ "" ∧
    normalizeAnswer (sanitize t1.answer) ≠ normalizeAnswer (sanitize t2.answer) ∧
    normalizeAnswer (sanitize t1.answer) ≠ normalizeAnswer (sanitize t3.answer) ∧
    normalizeAnswer (sanitize t1.answer) ≠ normalizeAnswer (sanitize t4.answer) ∧
    normalizeAnswer (sanitize t2.answer) ≠ normalizeAnswer (sanitize t3.answer) ∧
    normalizeAnswer (sanitize t2.answer) ≠ normalizeAnswer (sanitize t4.answer) ∧
    normalizeAnswer (sanitize t3.answer) ≠ normalizeAnswer (sanitize t4.answer)

/-- `buildMCQ` takes the pre-authored branch exactly when a `wrongAnswers`
array with at least 3 entries is present. -/
def hasPreauthored (q : TriviaQ) : Prop :=
  ∃ was, q.wrongAnswers = some was ∧ 3 ≤ was.length


/-- A constant stream for `Math.random()` draws (always picks index 0). -/
def zeroRnd : Nat → Nat := fun _ => 0

/-- A concrete bank with four normalization-distinct answers. -/
def c2Bank : List TriviaQ :=
  [⟨"Q1", "Texas", "E1", some ["texas", "Nebraska", "Alabama"]⟩,
   ⟨"Q2", "Nebraska", "E2", none⟩,
   ⟨"Q3", "Alabama", "E3", none⟩,
   ⟨"Q4", "Kansas", "E4", none⟩]

/-- The record of `c2Bank` whose pre-authored `wrongAnswers` contain a
duplicate (under normalization) of the correct answer. -/
def c2Q : TriviaQ := ⟨"Q1", "Texas", "E1", some ["texas", "Nebraska", "Alabama"]⟩

/-- A record of `c2Bank` without pre-authored distractors. -/
def c2wQ : TriviaQ := ⟨"Q2", "Nebraska", "E2", none⟩

/-- A one-question bank: too small to assemble three distractors. -/
def c5Bank : List TriviaQ := [⟨"Which bell?", "Boomer", "Because", none⟩]


/-! ## Intent helpers (`src/unnamed/part_001` lines 165–203)

The source's keyword regexes (all with the `i` flag) are modelled by
case-insensitive word/substring matchers:
`\ball[- ]time\b` becomes the two word literals `"all-time"`/`"all time"`,
and `\bvs\.?\b` matches exactly when `\bvs\b` does (the optional dot never
changes whether a boundary match exists), so it is modelled by `"vs"`. -/

def isTriviaRequest (text : String) : Bool :=
  anyWordCI text ["trivia", "quiz", "test me", "ask me trivia"]

def isAnswerChoice (text : String) : Bool :=
  ["a", "b", "c", "d"].contains (lowerStr (jsTrim text))

def isVideoRequest (text : String) : Bool :=
  anySubCI text ["video", "videos", "highlight", "highlights", "clip", "clips",
    "replay", "watch", "vod"]

def isESPNStatsRequest (text : String) : Bool :=
  anyWordCI text ["score", "scores", "record", "standings", "stats", "stat line",
    "yards", "tds", "touchdowns", "who won", "final", "rankings", "game", "games",
    "today", "this week", "last week", "schedule", "recent", "latest"]

def isCFBDHistoryRequest (text : String) : Bool :=
  if jsTrim (lowerStr text) = "history" then true
  else anyWordCI text ["all-time", "all time", "historical", "record in", "season",
    "since", "bowl", "championship", "national title", "conference title", "series",
    "head to head", "vs", "coaches", "heisman", "recruiting", "talent", "matchup"]

/-! ## Sessions and chat messages -/

structure ToolCall where
  id : Nat
  name : String
  query : String
deriving DecidableEq

inductive ChatMsg
  | user (content : String)
  | assistant (toolCalls : List ToolCall) (content : String)
  | toolResult (callId : Nat) (content : String)
deriving DecidableEq

/-- Per-session state.  A fresh JS session object has no `active`,
`correctIndex`, `explain` or `lastSeen` fields; the absent fields are
modelled by `false`, the sentinel `-1` (never equal to a letter index),
`""` and `0`. -/
structure Session where
  active : Bool
  correctIndex : Int
  explain : String
  chat : List ChatMsg
  lastSeen : Nat
deriving DecidableEq

def freshSession : Session := ⟨false, -1, "", [], 0⟩

/-- `{ a: 0, b: 1, c: 2, d: 3 }[text]`; `-1` models the absent-key lookup
(`undefined`), which compares unequal to every stored index. -/
def answerIdx (t : String) : Int :=
  if t = "a" then 0 else if t = "b" then 1 else if t = "c" then 2
  else if t = "d" then 3 else -1

/-! ## Rule-routed chat handler (`src/unnamed/part_001` lines 575–717) -/

structure VideoItem where
  title : String
  url : String
deriving DecidableEq

structure McpOutcome where
  ok : Bool
  text : String
deriving DecidableEq

structure RouterCfg where
  videoUrl : String
  espnUrl : String
  cfbdUrl : String

/-- Environment of one request: the trivia bank with the random draws for
this turn, plus the outcomes the remote providers would produce.  `video`
is `Except` so that a thrown `fetch`/`r.json()` (caught by the route's
outer `try`) can be represented. -/
structure RouterEnv where
  bank : List TriviaQ
  pick : Nat
  r1 : Nat → Nat
  r2 : Nat → Nat
  r3 : Nat → Nat
  video : Except Unit (Bool × List VideoItem)
  espn : McpOutcome
  cfbd : McpOutcome

inductive RouteTag
  | greeting | triviaAnswer | triviaWarmup | triviaQuestion | triviaHiccup
  | videoDisabled | videoFail | videoEmpty | videoList
  | espnDisabled | espnText | espnFail
  | cfbdDisabled | cfbdText | cfbdFail
  | fallback | crashed
deriving DecidableEq

def correctReplyP1 (explain : String) : String :=
  "✅ **Correct!** 🎉\n\n" ++ explain ++
  "\n\nWant to:\n• watch a highlight\n• try another trivia question\n• learn why this mattered?\n\nType **trivia** to keep going or **video** to watch."

def incorrectReplyP1 (letter explain : String) : String :=
  "❌ **Not quite — good guess!**\n\nCorrect answer: **" ++ letter ++
  ("**\n\n" ++ explain ++
   "\n\nWant to:\n• see this moment\n• try another question\n• learn the story behind it?\n\nType **trivia** to keep going or **video** to watch.")

def triviaReplyP1 (mcq : MCQ) : String :=
  "🧠 **OU Trivia**\n\n❓ " ++ mcq.question ++ "\n\n" ++
  String.intercalate "\n" (mcq.options.mapIdx (fun i o => letterAt i ++ ". " ++ o)) ++
  "\n\nReply with **A, B, C, or D**"

def videoReplyP1 (results : List VideoItem) : String :=
  jsTrim ("Boomer Sooner! Here are some highlights:\n\n" ++
    String.join (results.mapIdx
      (fun i v => "🎬 " ++ toString (i + 1) ++ ". " ++ v.title ++ "\n" ++ v.url ++ "\n\n")))

def fallbackMenuP1 : String :=
  "Boomer Sooner! I can help you with:\n\n🎬 **Videos** - \"show me Baker Mayfield highlights\"\n📊 **Scores/Stats** - \"what's the OU score?\" or \"recent games\"\n📚 **History** - \"OU all-time record\" or \"history\"\n🧠 **Trivia** - \"trivia\" for a fun question\n\nWhat would you like to know?"

def crashReplyP1 : String := "Sorry Sooner — something went wrong on my end."

/-- The `/chat` route of `src/unnamed/part_001`, as a function of the
session and the extracted request text (`getText` has already been
applied).  The result is the branch taken, the response text and the
updated session; `crashed` is the outer `catch`. -/
def routeChat (cfg : RouterCfg) (env : RouterEnv) (s : Session) (rawText : String) :
    RouteTag × String × Session :=
  let text := lowerStr rawText
  if rawText = "" then
    (.greeting, "Boomer Sooner! What can I help you with?", s)
  else if s.active && isAnswerChoice text then
    if answerIdx text = s.correctIndex then
      (.triviaAnswer, correctReplyP1 s.explain, { s with active := false })
    else
      (.triviaAnswer, incorrectReplyP1 (letterAtI s.correctIndex) s.explain,
        { s with active := false })
  else if isTriviaRequest rawText then
    if env.bank.length = 0 then
      (.triviaWarmup, "Trivia is warming up… (trivia.json not loaded)", s)
    else
      let q := env.bank.getD (env.pick % env.bank.length) ⟨"", "", "", none⟩
      let mcq := buildMCQ env.bank q env.r1 env.r2 env.r3
      if mcq.question = "" || mcq.options.length = 0 || mcq.correctIndex < 0 then
        (.triviaHiccup, "Trivia hiccup — try **trivia** again!", s)
      else
        (.triviaQuestion, triviaReplyP1 mcq,
          { s with active := true, correctIndex := mcq.correctIndex,
                   explain := mcq.explanation })
  else if isVideoRequest rawText then
    if cfg.videoUrl = "" then
      (.videoDisabled, "🎬 Video is not enabled yet (VIDEO_AGENT_URL not set).", s)
    else
      match env.video with
      | .error _ => (.crashed, crashReplyP1, s)
      | .ok (ok, results) =>
        if ok = false then
          (.videoFail, "Sorry, Sooner — I had trouble reaching the video library.", s)
        else if results.length = 0 then
          (.videoEmpty,
            "Boomer Sooner! I couldn't find a match.\n\nTry:\n• Baker Mayfield highlights\n• OU vs Alabama\n• Oklahoma playoff highlights", s)
        else (.videoList, videoReplyP1 results, s)
  else if isESPNStatsRequest rawText then
    if cfg.espnUrl = "" then
      (.espnDisabled, "📊 ESPN stats are not enabled yet (ESPN_MCP_URL not set).", s)
    else if env.espn.ok then (.espnText, env.espn.text, s)
    else (.espnFail, "Sorry, Sooner — I couldn't reach ESPN stats right now.", s)
  else if isCFBDHistoryRequest rawText then
    if cfg.cfbdUrl = "" then
      (.cfbdDisabled, "📚 CFBD history is not enabled yet (CFBD_MCP_URL not set).", s)
    else if env.cfbd.ok then (.cfbdText, env.cfbd.text, s)
    else (.cfbdFail, "Sorry, Sooner — I couldn't reach CFBD history right now.", s)
  else (.fallback, fallbackMenuP1, s)


/-! ## MCP tool cache (`src/unnamed/part_000` lines 76–83) -/

structure ToolDesc where
  name : String
deriving DecidableEq

/-- `getCachedTools`: per-endpoint cache of discovered tool lists.
`discover` stands for the network `getMcpTools(baseUrl)` call; the returned
`Nat` counts the network discovery calls performed (0 on a cache hit, 1 on
a miss).  The JS `Map` is an association list (first match wins, `set`
prepends). -/
def getCachedTools (cache : List (String × List ToolDesc))
    (discover : String → List ToolDesc) (baseUrl : String) :
    List ToolDesc × List (String × List ToolDesc) × Nat :=
  match cache.lookup baseUrl with
  | some ts => (ts, cache, 0)
  | none => (discover baseUrl, (baseUrl, discover baseUrl) :: cache, 1)

/-! ## Session store sweep (`src/unnamed/part_000` lines 53–63) -/

/-- The 15-minute idle window in milliseconds. -/
def idleWindowMs : Nat := 15 * 60 * 1000

/-- The periodic TTL sweep: delete every session whose `lastSeen` is older
than the idle window (`s.lastSeen || now` reads a falsy `lastSeen` as
`now`, so such sessions are kept). -/
def sweepSessions (now : Nat) (store : List (String × Session)) :
    List (String × Session) :=
  store.filter (fun e =>
    decide (now - (if e.2.lastSeen = 0 then now else e.2.lastSeen) ≤ idleWindowMs))

/-- `get_or_create`:
`if (!sessions.has(id)) sessions.set(id, {}); return sessions.get(id)`. -/
def getOrCreate (store : List (String × Session)) (id : String) :
    Session × List (String × Session) :=
  match store.lookup id with
  | some s => (s, store)
  | none => (freshSession, (id, freshSession) :: store)


/-! ## JSON values and MCP response handling
(`src/index.js` lines 921–1000 and the `callMcp` retry loop, lines
1222–1255) -/

inductive Json
  | null
  | bool (b : Bool)
  | num (n : Int)
  | str (s : String)
  | arr (items : List Json)
  | obj (fields : List (String × Json))

/-- JS property access `j[k]`; `none` models `undefined` (including access
on non-objects). -/
def getField : Json → String → Option Json
  | .obj fields, k => fields.lookup k
  | _, _ => none

/-- JS truthiness of a JSON value. -/
def truthy : Json → Bool
  | .null => false
  | .bool b => b
  | .num n => n != 0
  | .str s => s != ""
  | .arr _ => true
  | .obj _ => true

mutual
/-- JS `toString()` coercion (arrays join their elements with `","`,
`null` elements printing as empty). -/
def jsToString : Json → String
  | .null => "null"
  | .bool b => cond b "true" "false"
  | .num n => toString n
  | .str s => s
  | .obj _ => "[object Object]"
  | .arr items => String.intercalate "," (jsArrStrings items)
def jsArrStrings : List Json → List String
  | [] => []
  | .null :: rest => "" :: jsArrStrings rest
  | j :: rest => jsToString j :: jsArrStrings rest
end

def spaces (n : Nat) : String := String.mk (List.replicate n ' ')

def jsonEscape (s : String) : String :=
  String.join (s.toList.map (fun c =>
    if c = '"' then "\\\"" else if c = '\\' then "\\\\"
    else if c = '\n' then "\\n" else if c = '\t' then "\\t"
    else if c = '\r' then "\\r" else String.mk [c]))

mutual
/-- `JSON.stringify(v, null, 2)` at indentation level `lvl`. -/
def stringifyJson : Json → Nat → String
  | .null, _ => "null"
  | .bool b, _ => cond b "true" "false"
  | .num n, _ => toString n
  | .str s, _ => "\"" ++ jsonEscape s ++ "\""
  | .arr [], _ => "[]"
  | .arr (i :: items), lvl =>
      "[\n" ++ String.intercalate ",\n" (stringifyArr (i :: items) (lvl + 1))
      ++ "\n" ++ spaces (2 * lvl) ++ "]"
  | .obj [], _ => "\x7b\x7d"
  | .obj (f :: fields), lvl =>
      "\x7b\n" ++ String.intercalate ",\n" (stringifyFields (f :: fields) (lvl + 1))
      ++ "\n" ++ spaces (2 * lvl) ++ "\x7d"
def stringifyArr : List Json → Nat → List String
  | [], _ => []
  | j :: rest, lvl => (spaces (2 * lvl) ++ stringifyJson j lvl) :: stringifyArr rest lvl
def stringifyFields : List (String × Json) → Nat → List String
  | [], _ => []
  | (k, v) :: rest, lvl =>
      (spaces (2 * lvl) ++ "\"" ++ jsonEscape k ++ "\": " ++ stringifyJson v lvl)
      :: stringifyFields rest lvl
end

/-- `item.data || ""` with truthiness (coerced to string for the join). -/
def contentItemData (item : Json) : String :=
  match getField item "data" with
  | some d => if truthy d then jsToString d else ""
  | none => ""

/-- `item.text || item.data || ""`. -/
def contentItemText (item : Json) : String :=
  match getField item "text" with
  | some t => if truthy t then jsToString t else contentItemData item
  | none => contentItemData item

/-- `result.content.map(...).filter(Boolean).join("\n")`. -/
def joinContent (items : List Json) : String :=
  String.intercalate "\n" ((items.map contentItemText).filter (fun s => s ≠ ""))

/-- First truthy field of `d` among `keys` (a `||` chain). -/
def chainPick (d : Json) : List String → Option Json
  | [] => none
  | k :: rest =>
    match getField d k with
    | some v => if truthy v then some v else chainPick d rest
    | none => chainPick d rest

/-- The envelope chain
`data.response || data.reply || data.output_text || data.output ||
data.message || (data.data && (…)) || ""`, with the final `.toString()`. -/
def extractFallbackChain (d : Json) : String :=
  match chainPick d ["response", "reply", "output_text", "output", "message"] with
  | some v => jsToString v
  | none =>
    match getField d "data" with
    | some dd =>
      if truthy dd then
        match chainPick dd ["response", "reply", "output"] with
        | some v => jsToString v
        | none => ""
      else ""
    | none => ""

/-- `if (typeof result === "string") return result`, else fall through to
the envelope chain on `data`. -/
def resultStrOrChain (r d : Json) : String :=
  match r with
  | .str s => s
  | _ => extractFallbackChain d

/-- `extractMcpText(data)` (`src/index.js` lines 973–1000); a JS `result.text`
value is coerced to a string (remote text fields are strings). -/
def extractMcpText (dOpt : Option Json) : String :=
  match dOpt with
  | none => ""
  | some d =>
    if truthy d = false then ""
    else
      match d with
      | .str s => s
      | _ =>
        match getField d "result" with
        | some r =>
          if truthy r then
            match getField r "content" with
            | some (.arr items) => joinContent items
            | _ =>
              match getField r "text" with
              | some t => if truthy t then jsToString t else resultStrOrChain r d
              | none => resultStrOrChain r d
          else extractFallbackChain d
        | none => extractFallbackChain d

/-- A `fetchJson` result as consumed by the retry loop: `ok`, the parsed
JSON body (if any) and the raw text (if kept). -/
structure McpResp where
  ok : Bool
  json : Option Json
  text : Option String

def noDataSentinel : String := "No recent game found"

/-- `resp.json?.error` truthiness. -/
def mcpRespHasError (r : McpResp) : Bool :=
  match r.json with
  | some j =>
    match getField j "error" with
    | some e => truthy e
    | none => false
  | none => false

/-- `const out = extractMcpText(resp.json) || resp.text || ""`. -/
def extractedOut (r : McpResp) : String :=
  jsOr (extractMcpText r.json) (r.text.getD "")

/-- One attempt of the retry loop: `some text` means the loop returns
`{ok: true, text}` at this attempt, `none` means it continues. -/
def attemptAccept (r : McpResp) : Option String :=
  if r.ok && !mcpRespHasError r then
    if strContainsSub (extractedOut r) noDataSentinel then none
    else if jsTrim (extractedOut r) = "" then
      match r.json with
      | some j =>
        if 20 < (stringifyJson j 0).length
            && !(strContainsSub (stringifyJson j 0) noDataSentinel)
        then some (stringifyJson j 0) else none
      | none => none
    else some (jsTrim (extractedOut r))
  else none

/-- The `callMcp` retry loop over the ordered candidate payloads: the input
list holds the responses the endpoint gives to the successive candidates
(in order); the result pairs callMcp's return value with the number of
`tools/call` attempts performed. -/
def callMcpAttempts : List McpResp → McpOutcome × Nat
  | [] => (⟨false, "No valid response from MCP"⟩, 0)
  | r :: rest =>
    match attemptAccept r with
    | some t => (⟨true, t⟩, 1)
    | none =>
      let o := callMcpAttempts rest
      (o.1, o.2 + 1)

/-- Claim-side predicate (from the spec's words): an attempt whose
extracted text is non-empty and free of the "no data found" sentinel. -/
def specGoodAttempt (r : McpResp) : Bool :=
  jsTrim (extractedOut r) != "" && !(strContainsSub (extractedOut r) noDataSentinel)

/-- A default (failed) response used as `getD` filler. -/
def dfltResp : McpResp := ⟨false, none, none⟩

/-- A response whose extracted text is empty but whose JSON body is large:
the loop accepts it through the pretty-printed JSON dump fallback. -/
def c1DumpResp : McpResp := ⟨true, some (.obj [("foo", .str "some data here")]), none⟩


/-! ## Model-routed chat handler (`src/index.js` lines 1331–1549) -/

mutual
/-- `JSON.stringify(v)` (compact, no indentation). -/
def stringifyCompact : Json → String
  | .null => "null"
  | .bool b => cond b "true" "false"
  | .num n => toString n
  | .str s => "\"" ++ jsonEscape s ++ "\""
  | .arr items => "[" ++ String.intercalate "," (stringifyCompactArr items) ++ "]"
  | .obj fields => "\x7b" ++ String.intercalate "," (stringifyCompactFields fields) ++ "\x7d"
def stringifyCompactArr : List Json → List String
  | [] => []
  | j :: rest => stringifyCompact j :: stringifyCompactArr rest
def stringifyCompactFields : List (String × Json) → List String
  | [] => []
  | (k, v) :: rest =>
      ("\"" ++ jsonEscape k ++ "\":" ++ stringifyCompact v) :: stringifyCompactFields rest
end

structure School where
  id : String
  isDefault : Bool
  name : String
  displayName : String
  mascotName : String
  greeting : String
  systemPrompt : String
deriving DecidableEq

/-- `getAllSchools().find(s => s.id === schoolId) || getAllSchools().find(s => s.isDefault)`. -/
def findSchool (schools : List School) (schoolId : String) : Option School :=
  match schools.find? (fun s => s.id == schoolId) with
  | some s => some s
  | none => schools.find? (fun s => s.isDefault)

/-- `body.message` may be absent, a plain string, or an object with a
`text` field. -/
inductive MsgField
  | absent
  | str (s : String)
  | objWithText (text : String)
deriving DecidableEq

structure ChatBody where
  userId : Option String
  sessionId : Option String
  sessionIdSnake : Option String
  school : Option String
  message : MsgField
  text : Option String
  input : Option String
deriving DecidableEq

/-- `getText(body)`: the `||` chain over the accepted text aliases (an
object-valued `message` with a falsy `text` coerces to
`"[object Object]"`), then `.trim()`. -/
def getText (b : ChatBody) : String :=
  jsTrim (match b.message with
    | .objWithText t => jsOr t "[object Object]"
    | .str s => jsOr s (jsOr (b.text.getD "") (b.input.getD ""))
    | .absent => jsOr (b.text.getD "") (b.input.getD ""))

/-- `req.body?.userId || req.body?.sessionId || req.body?.session_id || "default"`. -/
def sessionIdOf (b : ChatBody) : String :=
  jsOr (b.userId.getD "")
    (jsOr (b.sessionId.getD "") (jsOr (b.sessionIdSnake.getD "") "default"))

/-- One scripted response of the generative model: the requested function
calls (empty = final message) and the assistant text. -/
structure LlmTurn where
  toolCalls : List ToolCall
  content : String
deriving DecidableEq

/-- Environment of one request to the model-routed handler: the school
configuration, the outcome `getTriviaQuestion()` would produce (with its
randomness folded in), the serialized results of the other tool functions
(which catch their own failures and never throw), and the scripted
generative-model responses — `Except.error` is a thrown `openai` call (or a
malformed `tool_calls` arguments payload), an exhausted script likewise
models a failing model call. -/
structure ChatEnv where
  schools : List School
  trivia : Except String TriviaPayload
  toolData : String → String → String
  llm : List (Except Unit LlmTurn)

def toolErrorJson (e : String) : String :=
  stringifyCompact (.obj [("error", .str e)])

def triviaResultJson (p : TriviaPayload) : String :=
  stringifyCompact (.obj [("question", .str p.question),
    ("options", .arr (p.options.map .str)),
    ("correctIndex", .num p.correctIndex),
    ("explanation", .str p.explanation)])

def knownToolNames : List String :=
  ["search_videos", "get_espn_stats", "get_cfbd_history", "get_cfbd_basketball",
   "get_ncaa_womens_sports", "get_gymnastics", "get_school_athletics"]

/-- Execute one model-requested function call (the `switch` of the handler,
`src/index.js` lines 1443–1505): `get_trivia_question` arms the session's
trivia state on success; the other tools return their serialized results
without touching the session; an unknown name yields an error result. -/
def execTool (env : ChatEnv) (s : Session) (tc : ToolCall) : String × Session :=
  if tc.name = "get_trivia_question" then
    match env.trivia with
    | .ok p => (triviaResultJson p,
        { s with active := true, correctIndex := p.correctIndex,
                 explain := p.explanation })
    | .error e => (toolErrorJson e, s)
  else if knownToolNames.contains tc.name then (env.toolData tc.name tc.query, s)
  else (toolErrorJson "Unknown function", s)

/-- The `for (const toolCall of assistantMessage.tool_calls)` loop: run each
call and push its result onto the chat history as a tool turn. -/
def execCalls (env : ChatEnv) : List ToolCall → Session → Session
  | [], s => s
  | tc :: rest, s =>
    let r := execTool env s tc
    execCalls env rest { r.2 with chat := r.2.chat ++ [ChatMsg.toolResult tc.id r.1] }

/-- The `while (assistantMessage.tool_calls.length > 0)` loop: push the
assistant turn, run its calls, then consume the next scripted model
response.  `none` means the next model call failed (thrown or script
exhausted); the mutated session is kept either way, as the JS session
object is mutated in place. -/
def toolLoop (env : ChatEnv) : List (Except Unit LlmTurn) → LlmTurn → Session →
    Option LlmTurn × Session
  | [], turn, s =>
    if turn.toolCalls = [] then (some turn, s)
    else (none, execCalls env turn.toolCalls
      { s with chat := s.chat ++ [ChatMsg.assistant turn.toolCalls turn.content] })
  | .error _ :: _, turn, s =>
    if turn.toolCalls = [] then (some turn, s)
    else (none, execCalls env turn.toolCalls
      { s with chat := s.chat ++ [ChatMsg.assistant turn.toolCalls turn.content] })
  | .ok t :: rest, turn, s =>
    if turn.toolCalls = [] then (some turn, s)
    else toolLoop env rest t (execCalls env turn.toolCalls
      { s with chat := s.chat ++ [ChatMsg.assistant turn.toolCalls turn.content] })

/-- `arr.slice(-n)`: the last `n` entries. -/
def lastN (n : Nat) (l : List ChatMsg) : List ChatMsg := l.drop (l.length - n)

/-- `session.chat.push({role: "user", content: rawText});`
`session.chat = session.chat.slice(-10);` -/
def pushUserTurn (s : Session) (rawText : String) : Session :=
  { s with chat := lastN 10 (s.chat ++ [ChatMsg.user rawText]) }

structure HttpResp where
  status : Nat
  response : String
deriving DecidableEq

/-- `res.json({response})`: HTTP 200 with a JSON body holding the text. -/
def jsonResp (t : String) : HttpResp := ⟨200, t⟩

def correctReplyIdx (displayName explain : String) : String :=
  "✅ **Correct!** 🎉\n\n" ++ explain ++
  "\n\nTry **trivia**, **video**, **stats**, or **history** — and don't forget to tune in to "
  ++ displayName ++ " Radio! 🎙️📻"

def incorrectReplyIdx (displayName letter explain : String) : String :=
  "❌ **Not quite!**\n\nCorrect answer: **" ++ letter ++ "** - " ++ explain ++
  "\n\nTry **trivia**, **video**, **stats**, or **history** — and don't forget to tune in to "
  ++ displayName ++ " Radio! 🎙️📻"

/-- The `catch` block's reply (it re-reads the school from the request). -/
def catchReply (schools : List School) (b : ChatBody) : String :=
  (if ((findSchool schools (jsOr (b.school.getD "") "sooners")).map
        School.displayName).getD "" = "OSU"
   then "Sorry Cowboy" else "Sorry Sooner")
  ++ " — something went wrong on my end. Please try again."

/-- The `/chat` handler of `src/index.js` for one request, given the stored
(or freshly created) session object.  Mutations persist even on a thrown
model call — the JS session object is mutated in place and the `catch`
replies without rolling anything back.  The trailing-parenthesis markdown
cleanup of the final reply (lines 1527–1533) is a pure rewrite of the reply
string and is not modelled; no stated property depends on the reply's exact
markdown. -/
def chatStep (env : ChatEnv) (s : Session) (b : ChatBody) : HttpResp × Session :=
  let rawText := getText b
  match findSchool env.schools (jsOr (b.school.getD "") "sooners") with
  | none => (jsonResp "School not found. Please try again.", s)
  | some school =>
    if rawText = "" then
      (jsonResp (jsOr school.greeting "Hello!" ++ " What can I help you with?"), s)
    else if s.active && isAnswerChoice (lowerStr rawText) then
      if answerIdx (lowerStr rawText) = s.correctIndex then
        (jsonResp (correctReplyIdx school.displayName s.explain),
          { s with active := false })
      else
        (jsonResp (incorrectReplyIdx school.displayName (letterAtI s.correctIndex)
            s.explain),
          { s with active := false })
    else
      let s1 := pushUserTurn s rawText
      match env.llm with
      | [] => (jsonResp (catchReply env.schools b), s1)
      | .error _ :: _ => (jsonResp (catchReply env.schools b), s1)
      | .ok t0 :: rest =>
        match toolLoop env rest t0 s1 with
        | (none, s2) => (jsonResp (catchReply env.schools b), s2)
        | (some fin, s2) =>
          (jsonResp fin.content,
            { s2 with chat := s2.chat ++ [ChatMsg.assistant fin.toolCalls fin.content] })

/-- Messages a scripted model turn appends to the history (the assistant
turn plus one tool turn per requested call). -/
def turnCost (t : LlmTurn) : Nat := 1 + t.toolCalls.length

/-- Upper bound on the messages the whole script can append inside the
tool-calling loop. -/
def scriptCost : List (Except Unit LlmTurn) → Nat
  | [] => 0
  | .ok t :: rest => turnCost t + scriptCost rest
  | .error _ :: rest => scriptCost rest

/-- Concrete data for the history-bound analysis: a default school, a
two-turn model script requesting two tool calls, and a session whose
history is already at the 10-entry bound. -/
def c8School : School :=
  ⟨"sooners", true, "University of Oklahoma", "OU", "Boomer", "Boomer Sooner!", "p"⟩

def c8Env : ChatEnv :=
  ⟨[c8School], .error "Trivia not loaded", fun _ _ => "data",
   [.ok ⟨[⟨1, "get_espn_stats", "score"⟩, ⟨2, "search_videos", "clip"⟩], "calling"⟩,
    .ok ⟨[], "done"⟩]⟩

def c8Session : Session :=
  ⟨false, -1, "", [.user "m1", .user "m2", .user "m3", .user "m4", .user "m5",
    .user "m6", .user "m7", .user "m8", .user "m9", .user "m10"], 0⟩

def c8Body : ChatBody := ⟨none, none, none, none, .str "hello there", none, none⟩

end Xsen

namespace Xsen

/-! Permutation facts about `shuffle`. -/

theorem count_set_eq (v x : String) :
    ∀ (l : List String) (i : Nat), i < l.length →
      (l.set i v).count x + (if l[i]?.getD "" = x then 1 else 0)
        = l.count x + (if v = x then 1 else 0) := by
  intro l
  induction l with
  | nil => intro i h; simp at h
  | cons a t ih =>
    intro i h
    cases i with
    | zero =>
      simp only [List.set, List.getElem?_cons_zero, Option.getD_some]
      rw [List.count_cons, List.count_cons]
      by_cases hax : a = x <;> by_cases hvx : v = x <;> simp [hax, hvx]
    | succ n =>
      simp only [List.set, List.getElem?_cons_succ]
      rw [List.count_cons, List.count_cons]
      have hn : n < t.length := by simpa using Nat.lt_of_succ_lt_succ h
      have := ih n hn
      by_cases hax : a = x <;> simp [hax] <;> omega

theorem getD_eq_getElemD (l : List String) (i : Nat) :
    l.getD i "" = l[i]?.getD "" := List.getD_eq_getElem?_getD l i ""

theorem swapIdx_perm (l : List String) (i j : Nat)
    (hi : i < l.length) (hj : j < l.length) : (swapIdx l i j).Perm l := by
  refine List.perm_iff_count.mpr (fun x => ?_)
  unfold swapIdx
  rw [getD_eq_getElemD l i, getD_eq_getElemD l j]
  have h1 := count_set_eq (l.getD j "") x l i hi
  have h2 := count_set_eq (l.getD i "") x (l.set i (l.getD j "")) j
    (by simpa using hj)
  rw [getD_eq_getElemD l j] at h1 h2
  rw [getD_eq_getElemD l i] at h2
  rcases eq_or_ne i j with rfl | hij
  · have hg : (l.set i (l[i]?.getD ""))[i]? = some (l[i]?.getD "") :=
      List.getElem?_set_self hi
    rw [hg, Option.getD_some] at h2
    omega
  · have hg : (l.set i (l[j]?.getD ""))[j]? = l[j]? :=
      List.getElem?_set_ne hij
    rw [hg] at h2
    omega

theorem swapIdx_length (l : List String) (i j : Nat) :
    (swapIdx l i j).length = l.length := by
  simp [swapIdx]

theorem fyLoop_perm (rnd : Nat → Nat) :
    ∀ (i : Nat) (l : List String), i < l.length → (fyLoop rnd i l).Perm l := by
  intro i
  induction i with
  | zero => intro l _; exact List.Perm.refl l
  | succ k ih =>
    intro l h
    have hk1 : k + 1 < l.length := h
    have hj : rnd (k + 1) % (k + 2) < l.length :=
      lt_of_le_of_lt (Nat.le_of_lt_succ (Nat.mod_lt _ (Nat.succ_pos _))) hk1
    have hswap := swapIdx_perm l (k + 1) (rnd (k + 1) % (k + 2)) hk1 hj
    have hlen : (swapIdx l (k + 1) (rnd (k + 1) % (k + 2))).length = l.length :=
      swapIdx_length l _ _
    have hrec := ih (swapIdx l (k + 1) (rnd (k + 1) % (k + 2)))
      (by rw [hlen]; exact Nat.lt_of_succ_lt h)
    exact hrec.trans hswap

theorem shuffle_perm (rnd : Nat → Nat) (l : List String) :
    (shuffle rnd l).Perm l := by
  unfold shuffle
  cases l with
  | nil => exact List.Perm.refl _
  | cons a t =>
    exact fyLoop_perm rnd ((a :: t).length - 1) (a :: t) (by simp)

theorem shuffle_length (rnd : Nat → Nat) (l : List String) :
    (shuffle rnd l).length = l.length :=
  (shuffle_perm rnd l).length_eq

theorem shuffle_countP (rnd : Nat → Nat) (l : List String) (p : String → Bool) :
    (shuffle rnd l).countP p = l.countP p :=
  (shuffle_perm rnd l).countP_eq p

theorem shuffle_mem (rnd : Nat → Nat) (l : List String) (x : String) :
    x ∈ shuffle rnd l ↔ x ∈ l :=
  (shuffle_perm rnd l).mem_iff

end Xsen

namespace Xsen

/-! ## Lemmas about `tryAddFrom` and the MCQ option lists -/

theorem contains_iff_mem_str (l : List String) (x : String) :
    l.contains x = true ↔ x ∈ l := by
  simp [List.contains]

theorem tryAddFrom_cons_eq (a : String) (rest used wrong : List String) :
    tryAddFrom (a :: rest) (used, wrong) =
      if normalizeAnswer a ∈ used then
        (if 3 ≤ wrong.length then (used, wrong) else tryAddFrom rest (used, wrong))
      else
        (if 3 ≤ (wrong ++ [a]).length then (normalizeAnswer a :: used, wrong ++ [a])
         else tryAddFrom rest (normalizeAnswer a :: used, wrong ++ [a])) := by
  show (if 3 ≤ (if used.contains (normalizeAnswer a) then (used, wrong)
          else (normalizeAnswer a :: used, wrong ++ [a])).2.length then
            (if used.contains (normalizeAnswer a) then (used, wrong)
              else (normalizeAnswer a :: used, wrong ++ [a]))
        else tryAddFrom rest (if used.contains (normalizeAnswer a) then (used, wrong)
          else (normalizeAnswer a :: used, wrong ++ [a]))) = _
  by_cases hc : normalizeAnswer a ∈ used
  · rw [if_pos ((contains_iff_mem_str _ _).mpr hc), if_pos hc]
  · rw [if_neg (fun h => hc ((contains_iff_mem_str _ _).mp h)), if_neg hc]

theorem tryAddFrom_wrong_mono :
    ∀ (pool used wrong : List String),
      ∃ d, (tryAddFrom pool (used, wrong)).2 = wrong ++ d := by
  intro pool
  induction pool with
  | nil => intro used wrong; exact ⟨[], by simp [tryAddFrom]⟩
  | cons a rest ih =>
    intro used wrong
    rw [tryAddFrom_cons_eq]
    by_cases hc : normalizeAnswer a ∈ used
    · rw [if_pos hc]
      by_cases hl : 3 ≤ wrong.length
      · exact ⟨[], by rw [if_pos hl, List.append_nil]⟩
      · rw [if_neg hl]; exact ih used wrong
    · rw [if_neg hc]
      by_cases hl : 3 ≤ (wrong ++ [a]).length
      · exact ⟨[a], by rw [if_pos hl]⟩
      · rw [if_neg hl]
        obtain ⟨d, hd⟩ := ih (normalizeAnswer a :: used) (wrong ++ [a])
        exact ⟨[a] ++ d, by rw [hd, List.append_assoc]⟩

theorem tryAddFrom_len_le :
    ∀ (pool used wrong : List String), wrong.length < 3 →
      (tryAddFrom pool (used, wrong)).2.length ≤ 3 := by
  intro pool
  induction pool with
  | nil => intro used wrong h; simpa [tryAddFrom] using Nat.le_of_lt h
  | cons a rest ih =>
    intro used wrong h
    rw [tryAddFrom_cons_eq]
    by_cases hc : normalizeAnswer a ∈ used
    · rw [if_pos hc]
      by_cases hl : 3 ≤ wrong.length
      · rw [if_pos hl]; exact Nat.le_of_lt h
      · rw [if_neg hl]; exact ih used wrong h
    · rw [if_neg hc]
      by_cases hl : 3 ≤ (wrong ++ [a]).length
      · rw [if_pos hl]
        simp only [List.length_append, List.length_cons, List.length_nil]
        omega
      · rw [if_neg hl]
        refine ih _ _ ?_
        simp only [List.length_append, List.length_cons, List.length_nil] at hl ⊢
        omega

theorem tryAddFrom_used_mono :
    ∀ (pool used wrong : List String) (x : String), x ∈ used →
      x ∈ (tryAddFrom pool (used, wrong)).1 := by
  intro pool
  induction pool with
  | nil => intro used wrong x h; simpa [tryAddFrom] using h
  | cons a rest ih =>
    intro used wrong x h
    rw [tryAddFrom_cons_eq]
    by_cases hc : normalizeAnswer a ∈ used
    · rw [if_pos hc]
      by_cases hl : 3 ≤ wrong.length
      · rw [if_pos hl]; exact h
      · rw [if_neg hl]; exact ih used wrong x h
    · rw [if_neg hc]
      have h' : x ∈ normalizeAnswer a :: used := List.mem_cons_of_mem _ h
      by_cases hl : 3 ≤ (wrong ++ [a]).length
      · rw [if_pos hl]; exact h'
      · rw [if_neg hl]; exact ih _ _ x h'

theorem tryAddFrom_norm_ne (c : String) :
    ∀ (pool used wrong : List String), c ∈ used →
      (∀ b ∈ wrong, normalizeAnswer b ≠ c) →
      ∀ b ∈ (tryAddFrom pool (used, wrong)).2, normalizeAnswer b ≠ c := by
  intro pool
  induction pool with
  | nil => intro used wrong _ hw; simpa [tryAddFrom] using hw
  | cons a rest ih =>
    intro used wrong hu hw
    rw [tryAddFrom_cons_eq]
    by_cases hc : normalizeAnswer a ∈ used
    · rw [if_pos hc]
      by_cases hl : 3 ≤ wrong.length
      · rw [if_pos hl]; exact hw
      · rw [if_neg hl]; exact ih used wrong hu hw
    · have hne : normalizeAnswer a ≠ c := fun hac => hc (hac ▸ hu)
      have hw' : ∀ b ∈ wrong ++ [a], normalizeAnswer b ≠ c := by
        intro b hb
        rcases List.mem_append.mp hb with hb | hb
        · exact hw b hb
        · rcases List.mem_singleton.mp hb with rfl
          exact hne
      have hu' : c ∈ normalizeAnswer a :: used := List.mem_cons_of_mem _ hu
      rw [if_neg hc]
      by_cases hl : 3 ≤ (wrong ++ [a]).length
      · rw [if_pos hl]; exact hw'
      · rw [if_neg hl]; exact ih _ _ hu' hw'

theorem tryAddFrom_complete :
    ∀ (pool used wrong : List String),
      (tryAddFrom pool (used, wrong)).2.length < 3 →
      ∀ a ∈ pool, normalizeAnswer a ∈ (tryAddFrom pool (used, wrong)).1 := by
  intro pool
  induction pool with
  | nil => intro used wrong _ a ha; simp at ha
  | cons a rest ih =>
    intro used wrong hlen b hb
    rw [tryAddFrom_cons_eq] at hlen ⊢
    by_cases hc : normalizeAnswer a ∈ used
    · rw [if_pos hc] at hlen ⊢
      by_cases hl : 3 ≤ wrong.length
      · rw [if_pos hl] at hlen
        exact absurd (show wrong.length < 3 from hlen) (by omega)
      · rw [if_neg hl] at hlen ⊢
        rcases List.mem_cons.mp hb with rfl | hb
        · exact tryAddFrom_used_mono rest used wrong _ hc
        · exact ih used wrong hlen b hb
    · rw [if_neg hc] at hlen ⊢
      by_cases hl : 3 ≤ (wrong ++ [a]).length
      · rw [if_pos hl] at hlen
        simp only [List.length_append, List.length_cons, List.length_nil] at hl hlen
        omega
      · rw [if_neg hl] at hlen ⊢
        have hmem : normalizeAnswer a ∈ normalizeAnswer a :: used := List.mem_cons_self _ _
        rcases List.mem_cons.mp hb with rfl | hb
        · exact tryAddFrom_used_mono rest _ _ _ hmem
        · exact ih _ _ hlen b hb

theorem tryAddFrom_used_src :
    ∀ (pool used wrong : List String) (x : String),
      x ∈ (tryAddFrom pool (used, wrong)).1 →
      x ∈ used ∨ ∃ b ∈ (tryAddFrom pool (used, wrong)).2, normalizeAnswer b = x := by
  intro pool
  induction pool with
  | nil => intro used wrong x h; exact Or.inl (by simpa [tryAddFrom] using h)
  | cons a rest ih =>
    intro used wrong x h
    rw [tryAddFrom_cons_eq] at h ⊢
    by_cases hc : normalizeAnswer a ∈ used
    · rw [if_pos hc] at h ⊢
      by_cases hl : 3 ≤ wrong.length
      · rw [if_pos hl] at h ⊢
        exact Or.inl h
      · rw [if_neg hl] at h ⊢
        exact ih used wrong x h
    · rw [if_neg hc] at h ⊢
      by_cases hl : 3 ≤ (wrong ++ [a]).length
      · rw [if_pos hl] at h ⊢
        rcases List.mem_cons.mp h with rfl | h'
        · exact Or.inr ⟨a, by simp, rfl⟩
        · exact Or.inl h'
      · rw [if_neg hl] at h ⊢
        rcases ih _ _ x h with h' | h'
        · rcases List.mem_cons.mp h' with rfl | h''
          · refine Or.inr ?_
            obtain ⟨d, hd⟩ := tryAddFrom_wrong_mono rest (normalizeAnswer a :: used) (wrong ++ [a])
            exact ⟨a, by simp [hd], rfl⟩
          · exact Or.inl h''
        · exact Or.inr h'

end Xsen

namespace Xsen

/-! ## MCQ option-list lemmas -/

theorem findIdxO_spec (p : String → Bool) :
    ∀ l : List String, (∃ a ∈ l, p a = true) →
      ∃ i, findIdxO p l = some i ∧ i < l.length ∧ p (l.getD i "") = true := by
  intro l
  induction l with
  | nil => rintro ⟨a, ha, _⟩; simp at ha
  | cons a t ih =>
    rintro ⟨b, hb, hpb⟩
    by_cases hpa : p a = true
    · exact ⟨0, by simp [findIdxO, hpa], by simp, by simpa using hpa⟩
    · have hbt : b ∈ t := by
        rcases List.mem_cons.mp hb with rfl | h
        · exact absurd hpb hpa
        · exact h
      obtain ⟨i, hfind, hlt, hp⟩ := ih ⟨b, hbt, hpb⟩
      refine ⟨i + 1, ?_, by simp only [List.length_cons]; omega, ?_⟩
      · simp [findIdxO, hpa, hfind]
      · simpa using hp

theorem findIndexJs_spec (cn : String) (l : List String)
    (hcount : l.countP (fun o => normalizeAnswer o == cn) = 1) :
    0 ≤ findIndexJs (fun o => normalizeAnswer o == cn) l ∧
    (findIndexJs (fun o => normalizeAnswer o == cn) l).toNat < l.length ∧
    normalizeAnswer (l.getD (findIndexJs (fun o => normalizeAnswer o == cn) l).toNat "") = cn := by
  have hex : ∃ a ∈ l, (fun o => normalizeAnswer o == cn) a = true :=
    List.countP_pos_iff.mp (by omega)
  obtain ⟨i, hfind, hlt, hp⟩ := findIdxO_spec _ l hex
  unfold findIndexJs
  rw [hfind]
  refine ⟨Int.ofNat_nonneg i, ?_, ?_⟩
  · simpa [Int.toNat_ofNat] using hlt
  · have := eq_of_beq hp
    simpa [Int.toNat_ofNat] using this

/-- The final-options construction used by both branches of `buildMCQ`:
a shuffle of the correct answer and three normalized-distinct distractors
yields a 4-option list in which exactly one option normalizes to the
correct answer. -/
theorem shuffled_options_prop (correct : String) (wrong : List String)
    (r : Nat → Nat) (hlen : wrong.length = 3)
    (hne : ∀ b ∈ wrong, normalizeAnswer b ≠ normalizeAnswer correct) :
    (shuffle r (correct :: wrong)).length = 4 ∧
    (shuffle r (correct :: wrong)).countP
      (fun o => normalizeAnswer o == normalizeAnswer correct) = 1 := by
  constructor
  · rw [shuffle_length]; simp [hlen]
  · rw [shuffle_countP]
    rw [List.countP_cons]
    have h0 : wrong.countP (fun o => normalizeAnswer o == normalizeAnswer correct) = 0 := by
      refine List.countP_eq_zero.mpr (fun b hb => ?_)
      simp only [beq_iff_eq]
      exact fun h => hne b hb h
    simp [h0]

/-! ## Lemmas about `wrongOf` -/

theorem wrongOf_norm_ne (bank : List TriviaQ) (q : TriviaQ) (r1 r2 : Nat → Nat) :
    ∀ b ∈ wrongOf bank q r1 r2,
      normalizeAnswer b ≠ normalizeAnswer (sanitize q.answer) := by
  intro b hb
  set cn := normalizeAnswer (sanitize q.answer) with hcn
  have hst1 : ∀ x ∈ (triviaSt1 bank q r1).2, normalizeAnswer x ≠ cn := by
    unfold triviaSt1
    exact tryAddFrom_norm_ne cn (triviaPool1 bank q r1) [cn] []
      (List.mem_singleton_self cn) (by intro x hx; simp at hx)
  have hcu : cn ∈ (triviaSt1 bank q r1).1 := by
    unfold triviaSt1
    exact tryAddFrom_used_mono (triviaPool1 bank q r1) [cn] [] cn
      (List.mem_singleton_self cn)
  unfold wrongOf at hb
  by_cases hc : (triviaSt1 bank q r1).2.length < 3
  · rw [if_pos hc, ← Prod.mk.eta (p := triviaSt1 bank q r1)] at hb
    exact tryAddFrom_norm_ne cn (triviaPool2 bank q r2) _ _ hcu hst1 b hb
  · rw [if_neg hc] at hb
    exact hst1 b hb


theorem wrongOf_len_le (bank : List TriviaQ) (q : TriviaQ) (r1 r2 : Nat → Nat) :
    (wrongOf bank q r1 r2).length ≤ 3 := by
  have hst1 : (triviaSt1 bank q r1).2.length ≤ 3 := by
    unfold triviaSt1
    exact tryAddFrom_len_le (triviaPool1 bank q r1) _ [] (by simp)
  unfold wrongOf
  by_cases hc : (triviaSt1 bank q r1).2.length < 3
  · rw [if_pos hc, ← Prod.mk.eta (p := triviaSt1 bank q r1)]
    exact tryAddFrom_len_le (triviaPool2 bank q r2) _ _ hc
  · rw [if_neg hc]
    exact hst1

/-- A bank with four normalization-distinct non-empty answers yields three
elements of `allOtherAnswers` with pairwise distinct normalizations. -/
theorem three_distinct_others (bank : List TriviaQ) (cn : String)
    (h : bankHasFourDistinct bank) :
    ∃ x ∈ allOtherAnswersOf bank cn, ∃ y ∈ allOtherAnswersOf bank cn,
      ∃ z ∈ allOtherAnswersOf bank cn,
      normalizeAnswer x ≠ normalizeAnswer y ∧
      normalizeAnswer x ≠ normalizeAnswer z ∧
      normalizeAnswer y ≠ normalizeAnswer z := by
  obtain ⟨t1, t2, t3, t4, m1, m2, m3, m4, e1, e2, e3, e4,
    d12, d13, d14, d23, d24, d34⟩ := h
  have hmem : ∀ t : TriviaQ, t ∈ bank → sanitize t.answer ≠ "" →
      normalizeAnswer (sanitize t.answer) ≠ cn →
      sanitize t.answer ∈ allOtherAnswersOf bank cn := by
    intro t ht hne hnc
    unfold allOtherAnswersOf
    refine List.mem_filter.mpr ⟨List.mem_map.mpr ⟨t, ht, rfl⟩, ?_⟩
    simp only [bne_iff_ne, ne_eq, Bool.and_eq_true, decide_eq_true_eq]
    exact ⟨hne, hnc⟩
  by_cases h1 : normalizeAnswer (sanitize t1.answer) = cn
  · have n2 : normalizeAnswer (sanitize t2.answer) ≠ cn := fun hx => d12 (h1.trans hx.symm)
    have n3 : normalizeAnswer (sanitize t3.answer) ≠ cn := fun hx => d13 (h1.trans hx.symm)
    have n4 : normalizeAnswer (sanitize t4.answer) ≠ cn := fun hx => d14 (h1.trans hx.symm)
    exact ⟨_, hmem t2 m2 e2 n2, _, hmem t3 m3 e3 n3, _, hmem t4 m4 e4 n4, d23, d24, d34⟩
  · by_cases h2 : normalizeAnswer (sanitize t2.answer) = cn
    · have n3 : normalizeAnswer (sanitize t3.answer) ≠ cn := fun hx => d23 (h2.trans hx.symm)
      have n4 : normalizeAnswer (sanitize t4.answer) ≠ cn := fun hx => d24 (h2.trans hx.symm)
      exact ⟨_, hmem t1 m1 e1 h1, _, hmem t3 m3 e3 n3, _, hmem t4 m4 e4 n4, d13, d14, d34⟩
    · by_cases h3 : normalizeAnswer (sanitize t3.answer) = cn
      · have n4 : normalizeAnswer (sanitize t4.answer) ≠ cn := fun hx => d34 (h3.trans hx.symm)
        exact ⟨_, hmem t1 m1 e1 h1, _, hmem t2 m2 e2 h2, _, hmem t4 m4 e4 n4, d12, d14, d24⟩
      · exact ⟨_, hmem t1 m1 e1 h1, _, hmem t2 m2 e2 h2, _, hmem t3 m3 e3 h3, d12, d13, d23⟩

end Xsen

namespace Xsen

theorem pigeonhole_three (W : List String) (hW : W.length < 3)
    (nx ny nz : String)
    (hx : ∃ b ∈ W, normalizeAnswer b = nx)
    (hy : ∃ b ∈ W, normalizeAnswer b = ny)
    (hz : ∃ b ∈ W, normalizeAnswer b = nz)
    (dxy : nx ≠ ny) (dxz : nx ≠ nz) (dyz : ny ≠ nz) : False := by
  obtain ⟨b1, hb1, e1⟩ := hx
  obtain ⟨b2, hb2, e2⟩ := hy
  obtain ⟨b3, hb3, e3⟩ := hz
  rcases W with _ | ⟨a, _ | ⟨c, _ | ⟨d, rest⟩⟩⟩
  · simp at hb1
  · rw [List.mem_singleton] at hb1 hb2
    subst hb1; subst hb2
    exact dxy (e1.symm.trans e2)
  · have g1 : b1 = a ∨ b1 = c := by simpa using hb1
    have g2 : b2 = a ∨ b2 = c := by simpa using hb2
    have g3 : b3 = a ∨ b3 = c := by simpa using hb3
    rcases g1 with rfl | rfl <;> rcases g2 with rfl | rfl <;> rcases g3 with rfl | rfl <;>
      first
        | exact dxy (e1.symm.trans e2)
        | exact dxz (e1.symm.trans e3)
        | exact dyz (e2.symm.trans e3)
  · simp only [List.length_cons] at hW; omega

theorem mem_allOther_norm_ne (bank : List TriviaQ) (cn : String) (x : String)
    (hx : x ∈ allOtherAnswersOf bank cn) : normalizeAnswer x ≠ cn := by
  unfold allOtherAnswersOf at hx
  have := (List.mem_filter.mp hx).2
  simp only [Bool.and_eq_true, bne_iff_ne, ne_eq] at this
  exact this.2

theorem wrongOf_len_three (bank : List TriviaQ) (q : TriviaQ) (r1 r2 : Nat → Nat)
    (h : bankHasFourDistinct bank) :
    (wrongOf bank q r1 r2).length = 3 := by
  have hle := wrongOf_len_le bank q r1 r2
  rcases Nat.lt_or_ge (wrongOf bank q r1 r2).length 3 with hlt | hge
  · exfalso
    unfold wrongOf at hlt
    by_cases hc : (triviaSt1 bank q r1).2.length < 3
    case neg =>
      rw [if_neg hc] at hlt; omega
    rw [if_pos hc, ← Prod.mk.eta (p := triviaSt1 bank q r1)] at hlt
    obtain ⟨x, hx, y, hy, z, hz, dxy, dxz, dyz⟩ :=
      three_distinct_others bank (normalizeAnswer (sanitize q.answer)) h
    have hcomp := tryAddFrom_complete (triviaPool2 bank q r2)
      (triviaSt1 bank q r1).1 (triviaSt1 bank q r1).2 hlt
    have hsrc2 := tryAddFrom_used_src (triviaPool2 bank q r2)
      (triviaSt1 bank q r1).1 (triviaSt1 bank q r1).2
    obtain ⟨d2, hd2⟩ := tryAddFrom_wrong_mono (triviaPool2 bank q r2)
      (triviaSt1 bank q r1).1 (triviaSt1 bank q r1).2
    -- reduce a used-set membership of the final state to a representative in
    -- the final wrong list
    have key : ∀ w : String, w ∈ allOtherAnswersOf bank (normalizeAnswer (sanitize q.answer)) →
        ∃ b ∈ (tryAddFrom (triviaPool2 bank q r2)
          ((triviaSt1 bank q r1).1, (triviaSt1 bank q r1).2)).2,
          normalizeAnswer b = normalizeAnswer w := by
      intro w hw
      have hwp : w ∈ triviaPool2 bank q r2 := by
        unfold triviaPool2
        exact (shuffle_mem r2 _ w).mpr hw
      have hused := hcomp w hwp
      rcases hsrc2 (normalizeAnswer w) hused with h1 | h1
      · -- trace membership back through the first tryAddFrom call
        have hsrc1 := tryAddFrom_used_src (triviaPool1 bank q r1)
          [normalizeAnswer (sanitize q.answer)] [] (normalizeAnswer w)
        rcases hsrc1 (by simpa [triviaSt1] using h1) with h2 | h2
        · exfalso
          exact mem_allOther_norm_ne bank _ w hw (List.mem_singleton.mp h2)
        · obtain ⟨b, hb, hbn⟩ := h2
          refine ⟨b, ?_, hbn⟩
          rw [hd2]
          exact List.mem_append_left _ (by simpa [triviaSt1] using hb)
      · exact h1
    exact pigeonhole_three _ hlt
      (normalizeAnswer x) (normalizeAnswer y) (normalizeAnswer z)
      (key x hx) (key y hy) (key z hz) dxy dxz dyz
  · omega

end Xsen

namespace Xsen

theorem buildMCQGenerated_prop (bank : List TriviaQ) (q : TriviaQ)
    (r1 r2 r3 : Nat → Nat) (h : bankHasFourDistinct bank) :
    mcqOneCorrect (buildMCQGenerated bank q r1 r2 r3)
      (normalizeAnswer (sanitize q.answer)) := by
  have hw3 := wrongOf_len_three bank q r1 r2 h
  have hne := wrongOf_norm_ne bank q r1 r2
  have hopts := shuffled_options_prop (sanitize q.answer) (wrongOf bank q r1 r2) r3 hw3 hne
  have htake : (shuffle r3 (sanitize q.answer :: wrongOf bank q r1 r2)).take 4
      = shuffle r3 (sanitize q.answer :: wrongOf bank q r1 r2) :=
    List.take_of_length_le (by rw [hopts.1])
  have hcount : ((shuffle r3 (sanitize q.answer :: wrongOf bank q r1 r2)).take 4).countP
      (fun o => normalizeAnswer o == normalizeAnswer (sanitize q.answer)) = 1 := by
    rw [htake]; exact hopts.2
  have hfi := findIndexJs_spec (normalizeAnswer (sanitize q.answer))
    ((shuffle r3 (sanitize q.answer :: wrongOf bank q r1 r2)).take 4) hcount
  have hlen : ((shuffle r3 (sanitize q.answer :: wrongOf bank q r1 r2)).take 4).length = 4 := by
    rw [htake]; exact hopts.1
  have hoeq : (buildMCQGenerated bank q r1 r2 r3).options
      = (shuffle r3 (sanitize q.answer :: wrongOf bank q r1 r2)).take 4 := rfl
  have hcor : (buildMCQGenerated bank q r1 r2 r3).correctIndex
      = findIndexJs (fun o => normalizeAnswer o == normalizeAnswer (sanitize q.answer))
        ((shuffle r3 (sanitize q.answer :: wrongOf bank q r1 r2)).take 4) := rfl
  unfold mcqOneCorrect
  rw [hoeq, hcor]
  refine ⟨hlen, hcount, hfi.1, ?_, hfi.2.2⟩
  have h1 := hfi.1
  have h2 := hfi.2.1
  rw [hlen] at h2
  omega

theorem buildMCQ_preauthored_prop (bank : List TriviaQ) (q : TriviaQ)
    (r1 r2 r3 : Nat → Nat) (was : List String)
    (hwa : q.wrongAnswers = some was) (hl3 : 3 ≤ was.length)
    (hne : ∀ b ∈ (was.take 3).map sanitize,
      normalizeAnswer b ≠ normalizeAnswer (sanitize q.answer)) :
    mcqOneCorrect (buildMCQ bank q r1 r2 r3)
      (normalizeAnswer (sanitize q.answer)) := by
  have hwl : ((was.take 3).map sanitize).length = 3 := by
    rw [List.length_map, List.length_take]
    omega
  have hopts := shuffled_options_prop (sanitize q.answer) ((was.take 3).map sanitize) r1 hwl hne
  have hfi := findIndexJs_spec (normalizeAnswer (sanitize q.answer))
    (shuffle r1 (sanitize q.answer :: (was.take 3).map sanitize)) hopts.2
  simp only [buildMCQ, hwa, if_pos hl3]
  unfold mcqOneCorrect
  refine ⟨hopts.1, hopts.2, hfi.1, ?_, hfi.2.2⟩
  show findIndexJs (fun o => normalizeAnswer o == normalizeAnswer (sanitize q.answer))
    (shuffle r1 (sanitize q.answer :: (was.take 3).map sanitize)) < 4
  have h1 := hfi.1
  have h2 := hfi.2.1
  rw [hopts.1] at h2
  omega

/-- C2 (amended): for every trivia source record, `buildMCQ` returns a
question with exactly 4 options, exactly one of which normalizes to the
correct answer with `correctIndex` at its position, (a) on the
bank-generated path whenever the bank holds at least 4 answers distinct
under normalization, and (b) on the pre-authored path whenever none of the
first three (sanitized) `wrongAnswers` normalizes to the correct answer. -/
theorem c2_mcq_exactly_one_correct (bank : List TriviaQ) (q : TriviaQ)
    (r1 r2 r3 : Nat → Nat) :
    (bankHasFourDistinct bank → ¬ hasPreauthored q →
      mcqOneCorrect (buildMCQ bank q r1 r2 r3) (normalizeAnswer (sanitize q.answer)))
    ∧ (∀ was, q.wrongAnswers = some was → 3 ≤ was.length →
        (∀ b ∈ (was.take 3).map sanitize,
          normalizeAnswer b ≠ normalizeAnswer (sanitize q.answer)) →
        mcqOneCorrect (buildMCQ bank q r1 r2 r3) (normalizeAnswer (sanitize q.answer))) := by
  constructor
  · intro hbank hpre
    cases hq : q.wrongAnswers with
    | none =>
      simp only [buildMCQ, hq]
      exact buildMCQGenerated_prop bank q r1 r2 r3 hbank
    | some was =>
      have hlt : ¬ 3 ≤ was.length := fun h => hpre ⟨was, hq, h⟩
      simp only [buildMCQ, hq, if_neg hlt]
      exact buildMCQGenerated_prop bank q r1 r2 r3 hbank
  · intro was hwa hl3 hne
    exact buildMCQ_preauthored_prop bank q r1 r2 r3 was hwa hl3 hne

/-- C2 counterexample: `c2Bank` satisfies the claim's bank-wide hypothesis,
yet on the pre-authored path `buildMCQ` produces TWO options that normalize
to the correct answer (the `wrongAnswers` array contains a duplicate of the
correct answer), so the claim as stated fails. -/
theorem c2_counterexample :
    bankHasFourDistinct c2Bank ∧ c2Q ∈ c2Bank ∧
    ¬ ((buildMCQ c2Bank c2Q zeroRnd zeroRnd zeroRnd).options.countP
        (fun o => normalizeAnswer o == normalizeAnswer (sanitize c2Q.answer)) = 1) ∧
    (buildMCQ c2Bank c2Q zeroRnd zeroRnd zeroRnd).options.countP
      (fun o => normalizeAnswer o == normalizeAnswer (sanitize c2Q.answer)) = 2 := by
  refine ⟨⟨⟨"Q1", "Texas", "E1", some ["texas", "Nebraska", "Alabama"]⟩,
    ⟨"Q2", "Nebraska", "E2", none⟩, ⟨"Q3", "Alabama", "E3", none⟩,
    ⟨"Q4", "Kansas", "E4", none⟩, by decide⟩, by decide, by decide, by decide⟩

/-- Witness for the amended C2 theorem at a concrete bank and record. -/
theorem c2_witness :
    bankHasFourDistinct c2Bank ∧ ¬ hasPreauthored c2wQ ∧
    mcqOneCorrect (buildMCQ c2Bank c2wQ zeroRnd zeroRnd zeroRnd)
      (normalizeAnswer (sanitize c2wQ.answer)) := by
  have hb : bankHasFourDistinct c2Bank :=
    ⟨⟨"Q1", "Texas", "E1", some ["texas", "Nebraska", "Alabama"]⟩,
     ⟨"Q2", "Nebraska", "E2", none⟩, ⟨"Q3", "Alabama", "E3", none⟩,
     ⟨"Q4", "Kansas", "E4", none⟩, by decide⟩
  have hp : ¬ hasPreauthored c2wQ := by
    rintro ⟨was, hwas, -⟩
    simp [c2wQ] at hwas
  exact ⟨hb, hp, (c2_mcq_exactly_one_correct c2Bank c2wQ zeroRnd zeroRnd zeroRnd).1 hb hp⟩

/-- C5: with a one-question bank (no three distractors available),
`getTriviaQuestion` does NOT report an error: it returns a question whose
options list has a single entry. -/
theorem c5_small_bank_returns_one_option :
    getTriviaQuestion c5Bank 0 zeroRnd zeroRnd zeroRnd =
      Except.ok ⟨"Which bell?", ["A. Boomer"], 0, "Because"⟩ := by
  rfl

end Xsen

namespace Xsen

/-! ## Substring lemmas for the reply templates -/

theorem isPrefixCharList_self_append :
    ∀ (p t : List Char), isPrefixCharList p (p ++ t) = true := by
  intro p
  induction p with
  | nil => intro t; rfl
  | cons c p ih =>
    intro t
    simp only [List.cons_append, isPrefixCharList, beq_self_eq_true, Bool.true_and]
    exact ih t

theorem containsSubAux_mid :
    ∀ (x p t : List Char), containsSubAux p (x ++ (p ++ t)) = true := by
  intro x
  induction x with
  | nil =>
    intro p t
    show containsSubAux p (p ++ t) = true
    cases hp : p ++ t with
    | nil =>
      have hpn : p = [] := by
        cases p with
        | nil => rfl
        | cons c u => simp at hp
      subst hpn
      rfl
    | cons c u =>
      have hpre := isPrefixCharList_self_append p t
      rw [hp] at hpre
      simp [containsSubAux, hpre]
  | cons c x ih =>
    intro p t
    simp only [List.cons_append, containsSubAux, Bool.or_eq_true]
    exact Or.inr (ih p t)

theorem strContainsSub_mid (a p b : String) :
    strContainsSub (a ++ (p ++ b)) p = true := by
  unfold strContainsSub
  have h : (a ++ (p ++ b)).toList = a.toList ++ (p.toList ++ b.toList) := by
    simp [String.toList]
  rw [h]
  exact containsSubAux_mid a.toList p.toList b.toList

/-- The incorrect-answer reply literally contains the correct letter. -/
theorem incorrectReplyP1_contains_letter (letter explain : String) :
    strContainsSub (incorrectReplyP1 letter explain) letter = true := by
  unfold incorrectReplyP1
  rw [String.append_assoc]
  exact strContainsSub_mid _ letter _

end Xsen

namespace Xsen

/-- C4: classifier precedence.  Whenever the session has an open trivia
question and the (lowercased) text is a single answer letter, the route
taken is the trivia-answer branch — regardless of which other keyword rules
the text might also match (the statement quantifies over all texts). -/
theorem c4_answer_precedence (cfg : RouterCfg) (env : RouterEnv) (s : Session)
    (raw : String) (hne : raw ≠ "") (hact : s.active = true)
    (hans : isAnswerChoice (lowerStr raw) = true) :
    (routeChat cfg env s raw).1 = RouteTag.triviaAnswer := by
  unfold routeChat
  rw [if_neg hne]
  rw [if_pos (show (s.active && isAnswerChoice (lowerStr raw)) = true by
    rw [hact, hans]; rfl)]
  by_cases hidx : answerIdx (lowerStr raw) = s.correctIndex
  · rw [if_pos hidx]
  · rw [if_neg hidx]

/-- C4 witness at a concrete input (`"b"` also matches no other rule only
incidentally; the theorem applies to any text). -/
theorem c4_answer_precedence_witness :
    ("b" : String) ≠ "" ∧
    ({ freshSession with active := true, correctIndex := 1 } : Session).active = true ∧
    isAnswerChoice (lowerStr "b") = true ∧
    (routeChat ⟨"", "", ""⟩ ⟨[], 0, zeroRnd, zeroRnd, zeroRnd, .ok (true, []), ⟨false, ""⟩, ⟨false, ""⟩⟩
      { freshSession with active := true, correctIndex := 1 } "b").1 = RouteTag.triviaAnswer := by
  refine ⟨by decide, by decide, by decide, ?_⟩
  exact c4_answer_precedence _ _ _ _ (by decide) (by decide) (by decide)

/-- C3: answering an open trivia question.  With an open question and a
valid answer letter: the trivia-answer branch fires; the session's `active`
flag is cleared and no other session field changes; the letter matching
`correctIndex` yields the correct-reply text, any other letter yields the
incorrect-reply text, which names the correct letter; and with no open
question an answer-shaped message is never routed to the trivia-answer
branch. -/
theorem c3_trivia_answer_check (cfg : RouterCfg) (env : RouterEnv) (s : Session)
    (raw : String) (hne : raw ≠ "") (hact : s.active = true)
    (hans : isAnswerChoice (lowerStr raw) = true) :
    ((routeChat cfg env s raw).1 = RouteTag.triviaAnswer
      ∧ (routeChat cfg env s raw).2.2 = { s with active := false })
    ∧ (answerIdx (lowerStr raw) = s.correctIndex →
        (routeChat cfg env s raw).2.1 = correctReplyP1 s.explain)
    ∧ (answerIdx (lowerStr raw) ≠ s.correctIndex →
        (routeChat cfg env s raw).2.1
            = incorrectReplyP1 (letterAtI s.correctIndex) s.explain
          ∧ strContainsSub ((routeChat cfg env s raw).2.1)
              (letterAtI s.correctIndex) = true)
    ∧ (∀ (s2 : Session) (t : String), s2.active = false →
        (routeChat cfg env s2 t).1 ≠ RouteTag.triviaAnswer) := by
  have hcond : (s.active && isAnswerChoice (lowerStr raw)) = true := by
    rw [hact, hans]; rfl
  refine ⟨?_, ?_, ?_, ?_⟩
  · unfold routeChat
    rw [if_neg hne, if_pos hcond]
    by_cases hidx : answerIdx (lowerStr raw) = s.correctIndex
    · rw [if_pos hidx]; exact ⟨rfl, rfl⟩
    · rw [if_neg hidx]; exact ⟨rfl, rfl⟩
  · intro hidx
    unfold routeChat
    rw [if_neg hne, if_pos hcond, if_pos hidx]
  · intro hidx
    unfold routeChat
    rw [if_neg hne, if_pos hcond, if_neg hidx]
    exact ⟨rfl, incorrectReplyP1_contains_letter _ _⟩
  · intro s2 t h2
    unfold routeChat
    by_cases ht : t = ""
    · rw [if_pos ht]; simp
    · rw [if_neg ht, h2]
      rw [if_neg (show ¬ ((false && isAnswerChoice (lowerStr t)) = true) by simp)]
      dsimp only
      repeat' split
      all_goals simp


/-- C3 witness at a concrete session and the (incorrect) letter `"c"`. -/
theorem c3_trivia_answer_check_witness :
    ("c" : String) ≠ "" ∧
    (⟨true, 1, "E", [], 0⟩ : Session).active = true ∧
    isAnswerChoice (lowerStr "c") = true ∧
    (routeChat ⟨"", "", ""⟩
        ⟨[], 0, zeroRnd, zeroRnd, zeroRnd, .ok (true, []), ⟨false, ""⟩, ⟨false, ""⟩⟩
        ⟨true, 1, "E", [], 0⟩ "c").2.1
      = incorrectReplyP1 (letterAtI (1 : Int)) "E" ∧
    (routeChat ⟨"", "", ""⟩
        ⟨[], 0, zeroRnd, zeroRnd, zeroRnd, .ok (true, []), ⟨false, ""⟩, ⟨false, ""⟩⟩
        ⟨true, 1, "E", [], 0⟩ "c").2.2
      = { (⟨true, 1, "E", [], 0⟩ : Session) with active := false } := by
  refine ⟨by decide, by decide, by decide, ?_, ?_⟩
  · exact ((c3_trivia_answer_check ⟨"", "", ""⟩
      ⟨[], 0, zeroRnd, zeroRnd, zeroRnd, .ok (true, []), ⟨false, ""⟩, ⟨false, ""⟩⟩
      ⟨true, 1, "E", [], 0⟩ "c" (by decide) (by decide) (by decide)).2.2.1
        (by decide)).1
  · exact (c3_trivia_answer_check ⟨"", "", ""⟩
      ⟨[], 0, zeroRnd, zeroRnd, zeroRnd, .ok (true, []), ⟨false, ""⟩, ⟨false, ""⟩⟩
      ⟨true, 1, "E", [], 0⟩ "c" (by decide) (by decide) (by decide)).1.2

end Xsen

namespace Xsen

/-- C6: discovering the tool list for the same endpoint twice issues at
most one network discovery call in total; the second lookup is a cache hit
returning the same value and leaving the cache unchanged, and the cache
only ever grows (no TTL, no eviction). -/
theorem c6_tool_discovery_cached (cache : List (String × List ToolDesc))
    (discover : String → List ToolDesc) (url : String) :
    (getCachedTools cache discover url).2.2
        + (getCachedTools (getCachedTools cache discover url).2.1 discover url).2.2 ≤ 1
    ∧ (getCachedTools (getCachedTools cache discover url).2.1 discover url).1
        = (getCachedTools cache discover url).1
    ∧ (getCachedTools (getCachedTools cache discover url).2.1 discover url).2.1
        = (getCachedTools cache discover url).2.1
    ∧ (∀ e ∈ cache, e ∈ (getCachedTools cache discover url).2.1) := by
  unfold getCachedTools
  cases h : cache.lookup url with
  | some ts => simp [h]
  | none =>
    simp [h, List.lookup]
    exact fun a b hab => Or.inr hab

theorem lookup_none_of_not_mem_keys {β : Type} :
    ∀ (l : List (String × β)) (id : String),
      id ∉ l.map Prod.fst → l.lookup id = none := by
  intro l
  induction l with
  | nil => intro id _; rfl
  | cons e rest ih =>
    intro id hid
    obtain ⟨k, v⟩ := e
    simp only [List.map_cons, List.mem_cons, not_or] at hid
    have hbeq : (id == k) = false := by
      simp only [beq_eq_false_iff_ne, ne_eq]
      exact fun h => hid.1 (by simp [h])
    have hstep : List.lookup id ((k, v) :: rest) = List.lookup id rest := by
      simp [List.lookup, hbeq]
    rw [hstep]
    exact ih id hid.2

theorem keys_of_filter_sub {β : Type} (p : String × β → Bool) :
    ∀ (l : List (String × β)) (k : String),
      k ∈ (l.filter p).map Prod.fst → k ∈ l.map Prod.fst := by
  intro l k hk
  obtain ⟨e, he, rfl⟩ := List.mem_map.mp hk
  exact List.mem_map.mpr ⟨e, List.mem_of_mem_filter he, rfl⟩

theorem lookup_filter_none {β : Type} (p : String × β → Bool) :
    ∀ (l : List (String × β)) (id : String) (s : β),
      (l.map Prod.fst).Nodup → l.lookup id = some s → p (id, s) = false →
      (l.filter p).lookup id = none := by
  intro l
  induction l with
  | nil => intro id s _ h; simp [List.lookup] at h
  | cons e rest ih =>
    intro id s hnd hl hp
    obtain ⟨k, v⟩ := e
    simp only [List.map_cons, List.nodup_cons] at hnd
    by_cases hk : (id == k) = true
    · have hkeq : id = k := eq_of_beq hk
      subst hkeq
      have hsv : v = s := by
        have : List.lookup id ((id, v) :: rest) = some v := by
          simp [List.lookup]
        rw [this] at hl
        exact Option.some.inj hl
      subst hsv
      have hpk : p (id, v) = false := hp
      rw [List.filter_cons, hpk]
      simp only [Bool.false_eq_true, if_false]
      refine lookup_none_of_not_mem_keys _ id (fun hmem => ?_)
      exact hnd.1 (keys_of_filter_sub p rest id hmem)
    · have hbeq : (id == k) = false := by
        cases hb : (id == k) with
        | true => exact absurd hb hk
        | false => rfl
      have hl' : rest.lookup id = some s := by
        have hstep : List.lookup id ((k, v) :: rest) = List.lookup id rest := by
          simp [List.lookup, hbeq]
        rw [hstep] at hl
        exact hl
      have hres := ih id s hnd.2 hl' hp
      rw [List.filter_cons]
      cases hpkv : p (k, v) with
      | true =>
        have hstep : List.lookup id ((k, v) :: (rest.filter p)) = List.lookup id (rest.filter p) := by
          simp [List.lookup, hbeq]
        simp only [if_true]
        rw [hstep]
        exact hres
      | false => simpa using hres

/-- C7: after a sweep at time `now`, a session idle for longer than the
15-minute window is gone from the store, and a subsequent
`get_or_create` for its identifier returns a fresh session with no pending
trivia state. -/
theorem c7_session_sweep (store : List (String × Session)) (now : Nat)
    (id : String) (s : Session)
    (hnodup : (store.map Prod.fst).Nodup)
    (hl : store.lookup id = some s)
    (hst : s.lastSeen ≠ 0)
    (hidle : idleWindowMs < now - s.lastSeen) :
    (sweepSessions now store).lookup id = none
    ∧ (getOrCreate (sweepSessions now store) id).1 = freshSession
    ∧ (getOrCreate (sweepSessions now store) id).1.active = false := by
  have hp : (fun e : String × Session =>
      decide (now - (if e.2.lastSeen = 0 then now else e.2.lastSeen) ≤ idleWindowMs))
      (id, s) = false := by
    simp only [if_neg hst, decide_eq_false_iff_not, not_le]
    exact hidle
  have hnone : (sweepSessions now store).lookup id = none := by
    unfold sweepSessions
    exact lookup_filter_none _ store id s hnodup hl hp
  refine ⟨hnone, ?_, ?_⟩
  · unfold getOrCreate
    rw [hnone]
  · unfold getOrCreate
    rw [hnone]
    rfl

/-- C7 witness: a concrete store with one stale session. -/
theorem c7_session_sweep_witness :
    ([("u", (⟨false, -1, "", [], 5⟩ : Session))].map Prod.fst).Nodup ∧
    [("u", (⟨false, -1, "", [], 5⟩ : Session))].lookup "u"
      = some (⟨false, -1, "", [], 5⟩ : Session) ∧
    (sweepSessions 10000000 [("u", (⟨false, -1, "", [], 5⟩ : Session))]).lookup "u" = none ∧
    (getOrCreate (sweepSessions 10000000 [("u", (⟨false, -1, "", [], 5⟩ : Session))]) "u").1
      = freshSession := by
  refine ⟨by decide, by decide, ?_, ?_⟩
  · exact (c7_session_sweep _ 10000000 "u" ⟨false, -1, "", [], 5⟩
      (by decide) (by decide) (by decide) (by decide)).1
  · exact (c7_session_sweep _ 10000000 "u" ⟨false, -1, "", [], 5⟩
      (by decide) (by decide) (by decide) (by decide)).2.1

end Xsen

namespace Xsen

/-- C1 (amended): the candidates are tried strictly in order; the loop
stops at the first attempt the source accepts — HTTP-ok with no JSON-RPC
error and either a non-blank sentinel-free extracted text (returning its
trimmed form) or, failing that, a parsed JSON body whose pretty-printed
dump is longer than 20 characters and sentinel-free (returning the dump) —
performing no further attempts after it; if every candidate is exhausted
without an accepted attempt it returns the structured failure
`{ok: false, text: "No valid response from MCP"}`. -/
theorem c1_callMcp_retry (resps : List McpResp) :
    ((∀ r ∈ resps, attemptAccept r = none) →
      callMcpAttempts resps = (⟨false, "No valid response from MCP"⟩, resps.length))
    ∧ (∀ (i : Nat) (t : String),
        (∀ j, j < i → attemptAccept (resps.getD j dfltResp) = none) →
        attemptAccept (resps.getD i dfltResp) = some t →
        i < resps.length →
        callMcpAttempts resps = (⟨true, t⟩, i + 1)) := by
  induction resps with
  | nil =>
    refine ⟨fun _ => rfl, ?_⟩
    intro i t _ _ hlt
    simp at hlt
  | cons r rest ih =>
    constructor
    · intro hall
      have hr : attemptAccept r = none := hall r (List.mem_cons_self r rest)
      show (match attemptAccept r with
        | some t => ((⟨true, t⟩ : McpOutcome), 1)
        | none =>
          let o := callMcpAttempts rest
          (o.1, o.2 + 1)) = (⟨false, "No valid response from MCP"⟩, (r :: rest).length)
      rw [hr]
      have := ih.1 (fun x hx => hall x (List.mem_cons_of_mem r hx))
      simp only [this, List.length_cons]
    · intro i t hprev hacc hlt
      cases i with
      | zero =>
        have hr : attemptAccept r = some t := by simpa using hacc
        show (match attemptAccept r with
          | some t => ((⟨true, t⟩ : McpOutcome), 1)
          | none =>
            let o := callMcpAttempts rest
            (o.1, o.2 + 1)) = (⟨true, t⟩, 0 + 1)
        rw [hr]
      | succ n =>
        have hr : attemptAccept r = none := by
          have := hprev 0 (Nat.succ_pos n)
          simpa using this
        have hprev' : ∀ j, j < n → attemptAccept (rest.getD j dfltResp) = none := by
          intro j hj
          have := hprev (j + 1) (by omega)
          simpa using this
        have hacc' : attemptAccept (rest.getD n dfltResp) = some t := by
          simpa using hacc
        have hlt' : n < rest.length := by
          simpa using Nat.lt_of_succ_lt_succ hlt
        have hrec := ih.2 n t hprev' hacc' hlt'
        show (match attemptAccept r with
          | some t => ((⟨true, t⟩ : McpOutcome), 1)
          | none =>
            let o := callMcpAttempts rest
            (o.1, o.2 + 1)) = (⟨true, t⟩, n + 1 + 1)
        rw [hr]
        simp only [hrec]

/-- C1 counterexample: a single response with an empty extracted text (no
recognizable envelope) but a large JSON body.  No attempt has a non-empty
extracted text, so the claim as stated says the client must exhaust the
candidates and return `{ok: false}` — but `callMcp` accepts the attempt via
the pretty-printed JSON dump and returns `{ok: true}`. -/
theorem c1_counterexample :
    specGoodAttempt c1DumpResp = false ∧
    (callMcpAttempts [c1DumpResp]).1.ok = true ∧
    (callMcpAttempts [c1DumpResp]).1.text
      = "\x7b\n  \"foo\": \"some data here\"\n\x7d" := by
  refine ⟨by decide, by decide, by decide⟩

/-- C1 witness: a "no data found" sentinel for the first two candidates and
a valid result for the third — the loop returns the third result after
exactly three attempts (no fourth). -/
theorem c1_callMcp_retry_witness :
    (∀ j, j < 2 → attemptAccept
      (([⟨true, none, some "No recent game found"⟩,
         ⟨true, none, some "No recent game found"⟩,
         ⟨true, none, some "OU won 35-10"⟩,
         ⟨true, none, some "extra"⟩] : List McpResp).getD j dfltResp) = none) ∧
    callMcpAttempts
      [⟨true, none, some "No recent game found"⟩,
       ⟨true, none, some "No recent game found"⟩,
       ⟨true, none, some "OU won 35-10"⟩,
       ⟨true, none, some "extra"⟩]
      = (⟨true, "OU won 35-10"⟩, 3) := by
  constructor
  · intro j hj
    interval_cases j <;> decide
  · exact c1_callMcp_retry _ |>.2 2 "OU won 35-10"
      (by intro j hj; interval_cases j <;> decide) (by decide) (by decide)

end Xsen

namespace Xsen

/-! ## Chat-history length lemmas -/

theorem lastN_length_le (n : Nat) (l : List ChatMsg) : (lastN n l).length ≤ n := by
  unfold lastN
  rw [List.length_drop]
  omega

theorem pushUserTurn_le (s : Session) (raw : String) :
    (pushUserTurn s raw).chat.length ≤ 10 :=
  lastN_length_le 10 _

theorem execTool_chat (env : ChatEnv) (s : Session) (tc : ToolCall) :
    (execTool env s tc).2.chat = s.chat := by
  unfold execTool
  by_cases h1 : tc.name = "get_trivia_question"
  · rw [if_pos h1]; cases env.trivia <;> rfl
  · rw [if_neg h1]
    by_cases h2 : knownToolNames.contains tc.name = true
    · rw [if_pos h2]
    · rw [if_neg h2]

theorem execCalls_chat_len (env : ChatEnv) :
    ∀ (tcs : List ToolCall) (s : Session),
      (execCalls env tcs s).chat.length = s.chat.length + tcs.length := by
  intro tcs
  induction tcs with
  | nil => intro s; simp [execCalls]
  | cons tc rest ih =>
    intro s
    show (execCalls env rest
      { (execTool env s tc).2 with
        chat := (execTool env s tc).2.chat ++ [ChatMsg.toolResult tc.id (execTool env s tc).1] }).chat.length
      = s.chat.length + (tc :: rest).length
    rw [ih]
    simp only [List.length_append, List.length_cons, List.length_nil, execTool_chat]
    omega

theorem toolLoop_chat_len (env : ChatEnv) :
    ∀ (script : List (Except Unit LlmTurn)) (turn : LlmTurn) (s : Session),
      ((toolLoop env script turn s).2).chat.length
        ≤ s.chat.length + turnCost turn + scriptCost script := by
  intro script
  induction script with
  | nil =>
    intro turn s
    by_cases h : turn.toolCalls = []
    · simp only [toolLoop, if_pos h, scriptCost, turnCost]
      omega
    · simp only [toolLoop, if_neg h, scriptCost, turnCost]
      rw [execCalls_chat_len]
      simp only [List.length_append, List.length_cons, List.length_nil]
      omega
  | cons e rest ih =>
    intro turn s
    cases e with
    | error u =>
      by_cases h : turn.toolCalls = []
      · simp only [toolLoop, if_pos h, turnCost]
        omega
      · simp only [toolLoop, if_neg h]
        rw [execCalls_chat_len]
        simp only [List.length_append, List.length_cons, List.length_nil,
          scriptCost, turnCost]
        omega
    | ok t =>
      by_cases h : turn.toolCalls = []
      · simp only [toolLoop, if_pos h, turnCost]
        omega
      · simp only [toolLoop, if_neg h]
        have hrec := ih t (execCalls env turn.toolCalls
          { s with chat := s.chat ++ [ChatMsg.assistant turn.toolCalls turn.content] })
        rw [execCalls_chat_len] at hrec
        simp only [List.length_append, List.length_cons, List.length_nil] at hrec
        simp only [scriptCost, turnCost] at hrec ⊢
        omega

/-- C8 (amended): the 10-entry bound on the stored history is enforced only
at the user-turn append; the tool-calling loop's assistant/tool appends and
the final assistant append do not re-trim, so after a request the stored
history is bounded by 10 plus the messages the model loop appended (one per
assistant turn, one per tool result, plus one final assistant message); the
bound of 10 is restored at the next request's user-turn append. -/
theorem c8_chat_history_trim_bound (env : ChatEnv) (s : Session) (b : ChatBody)
    (hraw : getText b ≠ "")
    (hans : (s.active && isAnswerChoice (lowerStr (getText b))) = false) :
    (pushUserTurn s (getText b)).chat.length ≤ 10 ∧
    (∀ sch, findSchool env.schools (jsOr (b.school.getD "") "sooners") = some sch →
      (chatStep env s b).2.chat.length ≤ 10 + scriptCost env.llm + 1) := by
  refine ⟨pushUserTurn_le s (getText b), ?_⟩
  intro sch hs
  unfold chatStep
  simp only [hs]
  rw [if_neg hraw]
  rw [if_neg (show ¬ (s.active && isAnswerChoice (lowerStr (getText b))) = true by
    rw [hans]; simp)]
  have hpush := pushUserTurn_le s (getText b)
  cases hllm : env.llm with
  | nil =>
    simpa using le_trans hpush (by omega)
  | cons e rest =>
    cases e with
    | error u =>
      simpa using le_trans hpush (by omega)
    | ok t0 =>
      have hloop := toolLoop_chat_len env rest t0 (pushUserTurn s (getText b))
      rcases hres : toolLoop env rest t0 (pushUserTurn s (getText b)) with ⟨fin, s2⟩
      rw [hres] at hloop
      dsimp only
      rw [hres]
      have hs2 : s2.chat.length ≤ 10 + (turnCost t0 + scriptCost rest) := by
        simp only at hloop
        omega
      cases fin with
      | none =>
        simp only [scriptCost]
        omega
      | some f =>
        simp only [List.length_append, List.length_cons, List.length_nil, scriptCost]
        omega

/-- C8 counterexample: a session already holding 10 messages; one model
round with two tool calls leaves 14 messages stored between requests, so
the claimed "length ≤ 10 at all times between chat requests" invariant
fails. -/
theorem c8_counterexample :
    c8Session.chat.length = 10 ∧
    (chatStep c8Env c8Session c8Body).2.chat.length = 14 ∧
    ¬ ((chatStep c8Env c8Session c8Body).2.chat.length ≤ 10) := by
  refine ⟨by decide, by decide, by decide⟩

/-- C8 witness for the amended bound at the concrete environment. -/
theorem c8_chat_history_trim_bound_witness :
    getText c8Body ≠ "" ∧
    (c8Session.active && isAnswerChoice (lowerStr (getText c8Body))) = false ∧
    (pushUserTurn c8Session (getText c8Body)).chat.length ≤ 10 ∧
    (chatStep c8Env c8Session c8Body).2.chat.length ≤ 10 + scriptCost c8Env.llm + 1 := by
  refine ⟨by decide, by decide, ?_, ?_⟩
  · exact (c8_chat_history_trim_bound c8Env c8Session c8Body (by decide) (by decide)).1
  · exact (c8_chat_history_trim_bound c8Env c8Session c8Body (by decide) (by decide)).2
      c8School (by decide)

end Xsen

namespace Xsen

/-- C9: every chat request is answered with HTTP 200 and a text payload:
every exit of the handler goes through `res.json({response})`, and when
the first generative-model call fails (throws), the `catch` block still
responds 200 with the apologetic text. -/
theorem c9_chat_always_http_200 (env : ChatEnv) (s : Session) (b : ChatBody) :
    (chatStep env s b).1.status = 200 ∧
    (∀ sch, findSchool env.schools (jsOr (b.school.getD "") "sooners") = some sch →
      getText b ≠ "" →
      (s.active && isAnswerChoice (lowerStr (getText b))) = false →
      ∀ u rest, env.llm = Except.error u :: rest →
        (chatStep env s b).1 = jsonResp (catchReply env.schools b)) := by
  constructor
  · unfold chatStep
    dsimp only
    repeat' split
    all_goals rfl
  · intro sch hs hraw hans u rest hllm
    unfold chatStep
    simp only [hs]
    rw [if_neg hraw]
    rw [if_neg (show ¬ (s.active && isAnswerChoice (lowerStr (getText b))) = true by
      rw [hans]; simp)]
    rw [hllm]

/-- C9 witness: a concrete request whose first model call throws. -/
theorem c9_chat_always_http_200_witness :
    (chatStep ⟨[c8School], .error "Trivia not loaded", fun _ _ => "data",
        [.error (), .ok ⟨[], "done"⟩]⟩ c8Session c8Body).1.status = 200 ∧
    (chatStep ⟨[c8School], .error "Trivia not loaded", fun _ _ => "data",
        [.error (), .ok ⟨[], "done"⟩]⟩ c8Session c8Body).1
      = jsonResp (catchReply [c8School] c8Body) := by
  constructor
  · exact (c9_chat_always_http_200 _ c8Session c8Body).1
  · exact (c9_chat_always_http_200 _ c8Session c8Body).2 c8School (by decide)
      (by decide) (by decide) () [.ok ⟨[], "done"⟩] rfl

/-- C10: processing a pending trivia answer is a pure check-and-clear: the
handler returns before the user turn is appended, so the session is left
exactly at `{ s with active := false }` — the chat history, `correctIndex`
and the stored explanation are all retained — and the reply is the
answer-check response. -/
theorem c10_trivia_answer_pure_frame (env : ChatEnv) (s : Session) (b : ChatBody)
    (sch : School)
    (hschool : findSchool env.schools (jsOr (b.school.getD "") "sooners") = some sch)
    (hraw : getText b ≠ "")
    (hact : s.active = true)
    (hans : isAnswerChoice (lowerStr (getText b)) = true) :
    (chatStep env s b).2 = { s with active := false } ∧
    (chatStep env s b).2.chat = s.chat ∧
    (chatStep env s b).2.correctIndex = s.correctIndex ∧
    (chatStep env s b).2.explain = s.explain ∧
    (chatStep env s b).1 =
      jsonResp (if answerIdx (lowerStr (getText b)) = s.correctIndex
        then correctReplyIdx sch.displayName s.explain
        else incorrectReplyIdx sch.displayName (letterAtI s.correctIndex) s.explain) := by
  have hcond : (s.active && isAnswerChoice (lowerStr (getText b))) = true := by
    rw [hact, hans]; rfl
  have hmain : chatStep env s b =
      (jsonResp (if answerIdx (lowerStr (getText b)) = s.correctIndex
        then correctReplyIdx sch.displayName s.explain
        else incorrectReplyIdx sch.displayName (letterAtI s.correctIndex) s.explain),
       { s with active := false }) := by
    unfold chatStep
    simp only [hschool]
    rw [if_neg hraw, if_pos hcond]
    by_cases hidx : answerIdx (lowerStr (getText b)) = s.correctIndex
    · rw [if_pos hidx, if_pos hidx]
    · rw [if_neg hidx, if_neg hidx]
  rw [hmain]
  exact ⟨rfl, rfl, rfl, rfl, rfl⟩

/-- C10 witness: answering `"b"` on a session with an open question, full
history and stored explanation. -/
theorem c10_trivia_answer_pure_frame_witness :
    (chatStep c8Env ⟨true, 1, "E", [ChatMsg.user "m1"], 7⟩
        ⟨none, none, none, none, .str "b", none, none⟩).2
      = { (⟨true, 1, "E", [ChatMsg.user "m1"], 7⟩ : Session) with active := false } ∧
    (chatStep c8Env ⟨true, 1, "E", [ChatMsg.user "m1"], 7⟩
        ⟨none, none, none, none, .str "b", none, none⟩).2.chat = [ChatMsg.user "m1"] ∧
    (chatStep c8Env ⟨true, 1, "E", [ChatMsg.user "m1"], 7⟩
        ⟨none, none, none, none, .str "b", none, none⟩).2.explain = "E" := by
  refine ⟨?_, ?_, ?_⟩
  · exact (c10_trivia_answer_pure_frame c8Env _ _ c8School (by decide) (by decide)
      (by decide) (by decide)).1
  · exact (c10_trivia_answer_pure_frame c8Env _ _ c8School (by decide) (by decide)
      (by decide) (by decide)).2.1
  · exact (c10_trivia_answer_pure_frame c8Env _ _ c8School (by decide) (by decide)
      (by decide) (by decide)).2.2.2.1

end Xsen
